import Mathlib

/-!
Verification of the yggman control plane: a shallow embedding of the
topology synthesizer (`node_manager.rs`), the agent session protocol
(`modules/websocket.rs`), the connection registry and broadcast logic
(`websocket_state.rs`) and the agent-side configuration writer
(`agent.rs`), together with proofs of the specified properties.

Rust `&str` values are modelled as `List Char`; `splitOnL` and
`containsL` mirror the semantics of Rust's `str::split` (left-to-right,
non-overlapping matches of a non-empty pattern) and `str::contains`.
-/

/-- Rust string slices are modelled as lists of characters. -/
abbrev Str := List Char

/-- Worker for `splitOnL`.  While the skip counter is positive we are still
consuming the characters of a matched pattern occurrence; at counter zero we
test for a pattern match at the current position (Rust's `str::split` scans
left to right and never matches overlapping occurrences). -/
def splitGo (pat : List Char) : List Char → Nat → List Char → List (List Char)
  | [], _, acc => [acc.reverse]
  | _ :: cs, k + 1, acc => splitGo pat cs k acc
  | c :: cs, 0, acc =>
    if pat.isPrefixOf (c :: cs) then acc.reverse :: splitGo pat cs (pat.length - 1) []
    else splitGo pat cs 0 (c :: acc)

/-- Rust `s.split(pat).collect::<Vec<_>>()` for a non-empty pattern `pat`. -/
def splitOnL (pat s : List Char) : List (List Char) :=
  splitGo pat s 0 []

/-- Rust `s.contains(pat)`: some occurrence of `pat` as a contiguous
substring of `s`. -/
def containsL (pat : List Char) : List Char → Bool
  | [] => pat.isPrefixOf []
  | c :: cs => pat.isPrefixOf (c :: cs) || containsL pat cs

/-- Model of `node_manager.rs::convert_listen_to_peer_with_address`: turn a listen
URI such as `tcp://0.0.0.0:9001` into a peer URI `tcp://ADDR:9001?key=KEY`,
returning `none` for unix-socket (local only) or unparseable listen URIs.
Faithful to the source: the unix check is a substring test, the
scheme/rest split is on `"://"`, the port is the second component of a
split on `"]:"` (bracketed IPv6 hosts) or on `":"`, and query parameters
are whatever follows the first `'?'` in the extracted port component. -/
def convert_listen_to_peer_with_address (listen_addr public_key address : Str) : Option Str :=
  if containsL ("unix://".data) listen_addr = true then none
  else
    match splitOnL ("://".data) listen_addr with
    | [protocol, addr_part] =>
      let port? : Option Str :=
        if containsL ("]:".data) addr_part = true then
          (splitOnL ("]:".data) addr_part).get? 1
        else
          (splitOnL (":".data) addr_part).get? 1
      match port? with
      | none => none
      | some port =>
        if containsL ("?".data) port = true then
          match splitOnL ("?".data) port with
          | port_clean :: params :: _ =>
            some (protocol ++ "://".data ++ address ++ ":".data ++ port_clean ++
                  "?key=".data ++ public_key ++ "&".data ++ params)
          | _ => none
        else
          some (protocol ++ "://".data ++ address ++ ":".data ++ port ++
                "?key=".data ++ public_key)
    | _ => none

/-- Model of `yggdrasil/mod.rs::Node`: a node record as stored in the directory. -/
structure Node where
  id : Str
  name : Str
  public_key : Str
  private_key : Str
  listen : List Str
  addresses : List Str
deriving DecidableEq

/-- Model of `yggdrasil/mod.rs::YggdrasilConfig`.  `node_info` values are the JSON
strings the topology synthesizer stores there (only the node name). -/
structure YggdrasilConfig where
  private_key : Str
  peers : List Str
  listen : List Str
  allowed_public_keys : List Str
  if_name : Str
  if_mtu : Nat
  node_info_privacy : Option Bool
  node_info : List (Str × Str)
deriving DecidableEq

/-- Model of `YggdrasilConfig::default()`. -/
def yggdrasil_config_default : YggdrasilConfig :=
  { private_key := []
    peers := []
    listen := []
    allowed_public_keys := []
    if_name := "auto".data
    if_mtu := 65535
    node_info_privacy := some false
    node_info := [] }

/-- The per-node body of `NodeManager::generate_configs`: the configuration
computed for `node` from the full node set `nodes`. -/
def node_config (nodes : List Node) (node : Node) : YggdrasilConfig :=
  let all_public_keys := nodes.map (fun n => n.public_key)
  let other_keys := all_public_keys.filter (fun k => decide (k ≠ node.public_key))
  let peers := nodes.bind (fun other =>
    if other.id ≠ node.id then
      other.listen.bind (fun listen_addr =>
        let addresses_to_use := if other.addresses = [] then ["127.0.0.1".data] else other.addresses
        addresses_to_use.filterMap (fun address =>
          convert_listen_to_peer_with_address listen_addr other.public_key address))
    else [])
  { yggdrasil_config_default with
      private_key := node.private_key
      listen := node.listen
      allowed_public_keys := other_keys
      peers := peers
      node_info := [("name".data, node.name)] }

/-- Model of `NodeManager::generate_configs`: the `HashMap<String, YggdrasilConfig>`
keyed by node id, modelled as a lookup function built by successive
inserts (a later insert for the same id overwrites an earlier one, as for
the Rust `HashMap`). -/
def generate_configs (nodes : List Node) : Str → Option YggdrasilConfig :=
  nodes.foldl (fun configs node => fun k =>
    if k = node.id then some (node_config nodes node) else configs k)
    (fun _ => none)

/-- Model of `NodeManager::get_all_nodes`: a database read error is swallowed and
yields the empty node list. -/
def get_all_nodes (read : Except Str (List Node)) : List Node :=
  match read with
  | .ok models => models
  | .error _ => []

/-- Model of `NodeManager::get_node_by_id` (first record with the given id). -/
def get_node_by_id (db : List Node) (node_id : Str) : Option Node :=
  db.find? (fun n => n.id == node_id)

/-- Model of `NodeManager::get_node_by_name` (first record with the given name). -/
def get_node_by_name (db : List Node) (name : Str) : Option Node :=
  db.find? (fun n => n.name == name)

/-- Model of `NodeManager::update_node`: errors when no record has the given id,
otherwise overwrites `name`, `listen` and `addresses` of the record with
that id, keeping its keys. -/
def update_node (db : List Node) (node_id name : Str) (listen addresses : List Str) :
    Except Str (List Node) :=
  if db.any (fun n => n.id == node_id) then
    .ok (db.map (fun n =>
      if n.id = node_id then { n with name := name, listen := listen, addresses := addresses } else n))
  else
    .error ("Node not found".data)

/-- The observable state of one session's bounded outbound mpsc channel
(capacity 100 in `modules/websocket.rs`): whether the receiver half is
gone, and how many messages are queued against the capacity. -/
structure Chan where
  closed : Bool
  queued : Nat
  capacity : Nat
deriving DecidableEq

/-- Outcome of an awaited send on a bounded tokio mpsc channel. -/
inductive SendOutcome where
  | delivered
  | deliveredAfterWait
  | failed
deriving DecidableEq

/-- Semantics of `tokio::sync::mpsc::Sender::send(..).await`, used by
`broadcast_configuration_update`: the send errs exactly when the receiver
has been dropped; on a full channel with a live receiver it waits for
capacity and then delivers. -/
def mpscSendAwait (ch : Chan) : SendOutcome :=
  if ch.closed then .failed
  else if ch.capacity ≤ ch.queued then .deliveredAfterWait
  else .delivered

/-- Model of `modules/websocket.rs::ServerMessage`. -/
inductive ServerMessage where
  | Config (node_id private_key : Str) (listen peers allowed_public_keys : List Str)
  | Update (listen peers allowed_public_keys : List Str)
  | Error (message : Str)
deriving DecidableEq

/-- One iteration of the fan-out loop of
`websocket_state.rs::broadcast_configuration_update`: the accumulator
carries the `failed_connections` list and the log of delivered messages. -/
def broadcastStep (configs : Str → Option YggdrasilConfig)
    (acc : List Str × List (Str × ServerMessage)) (p : Str × Chan) :
    List Str × List (Str × ServerMessage) :=
  match configs p.1 with
  | some config =>
    match mpscSendAwait p.2 with
    | .failed => (acc.1 ++ [p.1], acc.2)
    | _ => (acc.1, acc.2 ++ [(p.1, .Update config.listen config.peers config.allowed_public_keys)])
  | none =>
    match mpscSendAwait p.2 with
    | .failed => (acc.1 ++ [p.1], acc.2)
    | _ => (acc.1 ++ [p.1], acc.2 ++ [(p.1, .Update [] [] [])])

/-- Model of `websocket_state.rs::broadcast_configuration_update`: recompute the
topology from the directory, send each registered session its fresh
`Update` (an empty `Update` when its node no longer exists — in that case
the entry is marked failed regardless of the send outcome), then remove
all failed entries from the registry.  Returns the pruned registry, the
`failed_connections` list and the log of delivered messages. -/
def broadcast_configuration_update (connections : List (Str × Chan))
    (read : Except Str (List Node)) :
    List (Str × Chan) × List Str × List (Str × ServerMessage) :=
  let configs := generate_configs (get_all_nodes read)
  let fs := connections.foldl (broadcastStep configs) ([], [])
  (connections.filter (fun p => decide (p.1 ∉ fs.1)), fs.1, fs.2)

/-- Model of `websocket_state.rs::register_agent_connection`: `HashMap::insert`,
overwriting any prior entry for the id. -/
def register_agent_connection (connections : List (Str × Chan)) (node_id : Str) (tx : Chan) :
    List (Str × Chan) :=
  connections.filter (fun p => decide (p.1 ≠ node_id)) ++ [(node_id, tx)]

/-- Model of `modules/websocket.rs::AgentMessage`. -/
inductive AgentMessage where
  | Register (name : Str) (addresses : List Str)
  | Heartbeat
  | UpdateAddresses (addresses : List Str)
deriving DecidableEq

/-- One inbound websocket frame as seen by the server receive loop:
a text frame that parses to an `AgentMessage`, a text frame that fails to
parse, or a non-text/errored frame (both of the latter are skipped). -/
inductive Inbound where
  | msg (m : AgentMessage)
  | malformed
  | nonText
deriving DecidableEq

/-- Server-side shared state touched by a session: the node directory,
the connection registry, and the listen template from the settings store. -/
structure ServerState where
  db : List Node
  registry : List (Str × Chan)
  template : List Str
deriving DecidableEq

/-- Per-session state of `handle_agent_socket`: the associated node id
(absent before the first successful `Register`), the session's own
outbound channel, and a seed for the key/id generator used when a new
node record has to be created. -/
structure SessState where
  node_id : Option Str
  tx : Chan
  seed : Nat
deriving DecidableEq

/-- Result of processing inbound frames: the new shared state, the new
session state, the replies delivered on the session's own channel, and
the messages delivered by triggered broadcasts. -/
structure StepResult where
  server : ServerState
  sess : SessState
  selfOut : List ServerMessage
  bcastOut : List (Str × ServerMessage)
deriving DecidableEq

/-- Shared continuation of the `Register` arm of `handle_agent_socket`
(lines 115-142): associate the session, register its channel, compute the
topology, reply with `Config` (note: the `listen` field sent is the
current template, line 130) and trigger a broadcast. -/
def finish_register (server : ServerState) (sess : SessState)
    (default_listen : List Str) (node? : Option Node) : StepResult :=
  match node? with
  | none => ⟨server, sess, [], []⟩
  | some node =>
    let sess' : SessState := { sess with node_id := some node.id }
    let registry' := register_agent_connection server.registry node.id sess.tx
    let configs := generate_configs server.db
    match configs node.id with
    | some config =>
      let response := ServerMessage.Config node.id node.private_key default_listen
        config.peers config.allowed_public_keys
      let selfOut := if sess.tx.closed then [] else [response]
      let b := broadcast_configuration_update registry' (.ok server.db)
      ⟨{ server with registry := b.1 }, sess', selfOut, b.2.2⟩
    | none => ⟨{ server with registry := registry' }, sess', [], []⟩

/-- The body of the receive loop of `handle_agent_socket` for one inbound
frame.  `gen` supplies the id and the keypair used by
`NodeManager::add_node` when a fresh node record is created (random in the
source); unparseable text frames and non-text frames are logged and
skipped.  The settings read for the listen template is modelled on its
success path (`server.template`). -/
def session_step (gen : Nat → Str × Str × Str) (server : ServerState) (sess : SessState)
    (fr : Inbound) : StepResult :=
  match fr with
  | .malformed => ⟨server, sess, [], []⟩
  | .nonText => ⟨server, sess, [], []⟩
  | .msg .Heartbeat => ⟨server, sess, [], []⟩
  | .msg (.UpdateAddresses addresses) =>
    match sess.node_id with
    | none => ⟨server, sess, [], []⟩
    | some id =>
      match get_node_by_id server.db id with
      | none => ⟨server, sess, [], []⟩
      | some current_node =>
        match update_node server.db id current_node.name current_node.listen addresses with
        | .error _ => ⟨server, sess, [], []⟩
        | .ok db' =>
          let b := broadcast_configuration_update server.registry (.ok db')
          ⟨{ server with db := db', registry := b.1 }, sess, [], b.2.2⟩
  | .msg (.Register name addresses) =>
    let default_listen := server.template
    match get_node_by_name server.db name with
    | some existing_node =>
      match update_node server.db existing_node.id name default_listen addresses with
      | .ok db' =>
        finish_register { server with db := db' } sess default_listen
          (get_node_by_id db' existing_node.id)
      | .error _ =>
        finish_register server sess default_listen (some existing_node)
    | none =>
      let fresh : Node :=
        { id := (gen sess.seed).1
          name := name
          public_key := (gen sess.seed).2.1
          private_key := (gen sess.seed).2.2
          listen := default_listen
          addresses := addresses }
      let db' := server.db ++ [fresh]
      finish_register { server with db := db' } { sess with seed := sess.seed + 1 }
        default_listen (get_node_by_name db' name)

/-- The receive loop of `handle_agent_socket`: process the inbound frames
in arrival order, threading the state and concatenating the outputs. -/
def session_loop (gen : Nat → Str × Str × Str) :
    List Inbound → ServerState → SessState → StepResult
  | [], server, sess => ⟨server, sess, [], []⟩
  | fr :: rest, server, sess =>
    let r := session_step gen server sess fr
    let r' := session_loop gen rest r.server r.sess
    ⟨r'.server, r'.sess, r.selfOut ++ r'.selfOut, r.bcastOut ++ r'.bcastOut⟩

/-- A JSON value as far as the agent-side config writer distinguishes
them: the three arrays it writes, or any other opaque value. -/
inductive JVal where
  | arr (items : List Str)
  | strv (s : Str)
  | boolv (b : Bool)
deriving DecidableEq

/-- Model of `serde_json` object index-assignment `config[key] = v`: replace the
value of an existing key, or append the key. -/
def setKey (doc : List (Str × JVal)) (key : Str) (v : JVal) : List (Str × JVal) :=
  if doc.any (fun p => p.1 == key) then
    doc.map (fun p => if p.1 = key then (key, v) else p)
  else
    doc ++ [(key, v)]

/-- Lookup of a key in the JSON configuration document. -/
def getKey (doc : List (Str × JVal)) (key : Str) : Option JVal :=
  (doc.find? (fun p => p.1 == key)).map (fun p => p.2)

/-- Model of `agent.rs::update_yggdrasil_config_full`: read the current document
and overwrite exactly the `Listen`, `Peers` and `AllowedPublicKeys`
fields with the server-supplied arrays. -/
def update_yggdrasil_config_full (doc : List (Str × JVal))
    (listen peers allowed_public_keys : List Str) : List (Str × JVal) :=
  setKey (setKey (setKey doc ("Listen".data) (.arr listen))
      ("Peers".data) (.arr peers))
    ("AllowedPublicKeys".data) (.arr allowed_public_keys)

/-- Fixture: node A of the specification's two-node example. -/
def nodeA : Node :=
  { id := "node-a".data
    name := "a".data
    public_key := "PA".data
    private_key := "SA".data
    listen := ["tcp://0.0.0.0:9001".data]
    addresses := ["10.0.0.1".data] }

/-- Fixture: node B of the specification's two-node example. -/
def nodeB : Node :=
  { id := "node-b".data
    name := "b".data
    public_key := "PB".data
    private_key := "SB".data
    listen := ["tcp://0.0.0.0:9002".data]
    addresses := ["10.0.0.2".data] }

/-- Fixture: a node whose stored listen list differs from the current
listen template. -/
def nodeC : Node :=
  { id := "node-c".data
    name := "c".data
    public_key := "PC".data
    private_key := "SC".data
    listen := ["tcp://0.0.0.0:7777".data]
    addresses := ["10.0.0.3".data] }

/-- Fixture: an idle outbound channel with a live receiver. -/
def chanLive : Chan := { closed := false, queued := 0, capacity := 100 }

/-- Fixture: a full outbound channel with a live receiver. -/
def chanFull : Chan := { closed := false, queued := 100, capacity := 100 }

/-- Fixture: an outbound channel whose receiver is gone. -/
def chanClosed : Chan := { closed := true, queued := 0, capacity := 100 }

/-- Fixture: a deterministic id/keypair generator. -/
def genTest : Nat → Str × Str × Str :=
  fun _ => ("node-new".data, "PN".data, "SN".data)

/-- Fixture: a server state holding the stale-listen node `nodeC` and a
listen template that differs from `nodeC`'s stored listen list. -/
def serverC : ServerState :=
  { db := [nodeC]
    registry := []
    template := ["tcp://0.0.0.0:9001".data] }

/-- Fixture: an unassociated session. -/
def sessFresh : SessState := { node_id := none, tx := chanLive, seed := 0 }

/-- Fixture: a session associated with `nodeC`. -/
def sessC : SessState := { node_id := some ("node-c".data), tx := chanLive, seed := 0 }

/-- Fixture: an agent-side configuration document. -/
def docTest : List (Str × JVal) :=
  [("PrivateKey".data, JVal.strv ("SECRET".data)),
   ("Listen".data, JVal.arr []),
   ("IfName".data, JVal.strv ("auto".data))]

/-! ### Properties of the string model -/

theorem mem_of_middle {t x y : Str} {c : Char} (h : t = x ++ c :: y) : c ∈ t := by
  subst h; simp

/-- Model of `containsL` finds exactly the contiguous occurrences of `pat`. -/
theorem containsL_iff {pat t : Str} : containsL pat t = true ↔ ∃ x y, t = x ++ pat ++ y := by
  induction t with
  | nil =>
    simp only [containsL]
    constructor
    · intro h
      have : pat <+: ([] : Str) := List.isPrefixOf_iff_prefix.mp h
      rcases this with ⟨r, hr⟩
      rcases List.append_eq_nil.mp hr with ⟨h1, _⟩
      exact ⟨[], [], by simp [h1]⟩
    · rintro ⟨x, y, hxy⟩
      rcases List.append_eq_nil.mp hxy.symm with ⟨h1, h2⟩
      rcases List.append_eq_nil.mp h1 with ⟨_, h4⟩
      simp [List.isPrefixOf_iff_prefix, h4]
  | cons c cs ih =>
    simp only [containsL, Bool.or_eq_true]
    constructor
    · rintro (h | h)
      · rcases List.isPrefixOf_iff_prefix.mp h with ⟨r, hr⟩
        exact ⟨[], r, by simp [hr.symm]⟩
      · rcases ih.mp h with ⟨x, y, hxy⟩
        exact ⟨c :: x, y, by simp [hxy]⟩
    · rintro ⟨x, y, hxy⟩
      cases x with
      | nil =>
        left
        exact List.isPrefixOf_iff_prefix.mpr ⟨y, by simpa using hxy.symm⟩
      | cons a x' =>
        right
        rcases List.cons_eq_cons.mp hxy with ⟨_, h2⟩
        exact ih.mpr ⟨x', y, h2⟩

theorem containsL_eq_false {pat t : Str} (h : ∀ x y, t ≠ x ++ pat ++ y) :
    containsL pat t = false := by
  rcases hc : containsL pat t with _ | _
  · rfl
  · rcases containsL_iff.mp hc with ⟨x, y, hxy⟩
    exact absurd hxy (h x y)

theorem containsL_single_eq_false {c : Char} {t : Str} (h : c ∉ t) :
    containsL [c] t = false := by
  refine containsL_eq_false (fun x y hxy => h ?_)
  exact mem_of_middle (by simpa using hxy)

/-- A single occurrence of the character `c` pins any `c`-decomposition. -/
theorem uniqueCharSplit {c : Char} {u v : Str} (hu : c ∉ u) (hv : c ∉ v) :
    ∀ x y, u ++ c :: v = x ++ c :: y → x = u ∧ y = v := by
  induction u with
  | nil =>
    intro x y hxy
    cases x with
    | nil =>
      simp only [List.nil_append] at hxy
      exact ⟨rfl, (List.cons_eq_cons.mp hxy).2.symm⟩
    | cons a x' =>
      rcases List.cons_eq_cons.mp hxy with ⟨h1, h2⟩
      exact absurd (mem_of_middle h2) hv
  | cons b u' ih =>
    intro x y hxy
    cases x with
    | nil =>
      rcases List.cons_eq_cons.mp hxy with ⟨h1, _⟩
      exact absurd h1.symm (by simp at hu; exact hu.1)
    | cons a x' =>
      rcases List.cons_eq_cons.mp hxy with ⟨h1, h2⟩
      have := ih (by simp at hu; exact hu.2) x' y h2
      exact ⟨by simp [h1, this.1], this.2⟩

/-- A `c`-decomposition either hits the first `c` of the list or lies
entirely beyond it. -/
theorem firstCharSplit {c : Char} {u : Str} (hu : c ∉ u) :
    ∀ z x y, u ++ c :: z = x ++ c :: y →
      (x = u ∧ y = z) ∨ ∃ x', x = u ++ c :: x' ∧ z = x' ++ c :: y := by
  induction u with
  | nil =>
    intro z x y hxy
    cases x with
    | nil =>
      left
      simp only [List.nil_append] at hxy
      exact ⟨rfl, (List.cons_eq_cons.mp hxy).2.symm⟩
    | cons a x' =>
      rcases List.cons_eq_cons.mp hxy with ⟨h1, h2⟩
      right
      exact ⟨x', by simp [h1.symm], h2⟩
  | cons b u' ih =>
    intro z x y hxy
    cases x with
    | nil =>
      rcases List.cons_eq_cons.mp hxy with ⟨h1, _⟩
      exact absurd h1.symm (by simp at hu; exact hu.1)
    | cons a x' =>
      rcases List.cons_eq_cons.mp hxy with ⟨h1, h2⟩
      rcases ih (by simp at hu; exact hu.2) z x' y h2 with h | ⟨x'', hx'', hz⟩
      · left; exact ⟨by simp [h1, h.1], h.2⟩
      · right; exact ⟨x'', by simp [h1, hx''], hz⟩

theorem splitGo_of_not_contains {pat : Str} :
    ∀ {s : Str} (acc : Str), containsL pat s = false →
      splitGo pat s 0 acc = [acc.reverse ++ s] := by
  intro s
  induction s with
  | nil => intro acc _; simp [splitGo]
  | cons c cs ih =>
    intro acc h
    simp only [containsL, Bool.or_eq_false_iff] at h
    simp only [splitGo, h.1, if_false, Bool.false_eq_true]
    rw [ih (c :: acc) h.2]
    simp

theorem splitOnL_of_not_contains {pat s : Str} (h : containsL pat s = false) :
    splitOnL pat s = [s] := by
  simpa using splitGo_of_not_contains [] h

/-- A positive skip counter consumes characters blindly. -/
theorem splitGo_skip {pat : Str} :
    ∀ (t y acc : Str), splitGo pat (t ++ y) t.length acc = splitGo pat y 0 acc := by
  intro t
  induction t with
  | nil => intro y acc; rfl
  | cons c t' ih => intro y acc; simpa [splitGo] using ih y acc

theorem isPrefixOf_of_isPrefixOf_extend {pat u y : Str} (hne : pat ≠ []) (hu : u ≠ [])
    (h : pat.isPrefixOf (u ++ pat ++ y) = true) :
    pat.isPrefixOf (u ++ pat.dropLast) = true := by
  have hpre : pat <+: (u ++ pat ++ y) := List.isPrefixOf_iff_prefix.mp h
  have hshape : u ++ pat ++ y = (u ++ pat.dropLast) ++ ([pat.getLast hne] ++ y) := by
    conv_lhs => rw [← List.dropLast_append_getLast hne]
    simp
  have hlen : pat.length ≤ (u ++ pat.dropLast).length := by
    have h1 : 1 ≤ u.length := by
      cases u with
      | nil => exact absurd rfl hu
      | cons _ _ => simp
    have h2 : 1 ≤ pat.length := by
      cases pat with
      | nil => exact absurd rfl hne
      | cons _ _ => simp
    simp only [List.length_append, List.length_dropLast]
    omega
  have htake : pat = (u ++ pat.dropLast).take pat.length := by
    have := List.prefix_iff_eq_take.mp hpre
    rw [hshape] at this
    rwa [List.take_append_of_le_length hlen] at this
  refine List.isPrefixOf_iff_prefix.mpr ?_
  conv_lhs => rw [htake]
  exact List.take_prefix _ _

/-- The first pattern occurrence splits the list: if no occurrence of
`pat` starts strictly inside `x` (when `x` is extended by the first
`pat.length - 1` pattern characters), then splitting `x ++ pat ++ y`
yields `x` and then the splits of `y`. -/
theorem splitGo_first {p : Char} {ps : List Char} :
    ∀ {x : Str} (y acc : Str),
      containsL (p :: ps) (x ++ (p :: ps).dropLast) = false →
      splitGo (p :: ps) (x ++ (p :: ps) ++ y) 0 acc =
        (acc.reverse ++ x) :: splitGo (p :: ps) y 0 [] := by
  intro x
  induction x with
  | nil =>
    intro y acc _
    have hpre : (p :: ps).isPrefixOf (p :: (ps ++ y)) = true :=
      List.isPrefixOf_iff_prefix.mpr ⟨y, by simp⟩
    have hskip := @splitGo_skip (p :: ps) ps y []
    show splitGo (p :: ps) (p :: (ps ++ y)) 0 acc = (acc.reverse ++ []) :: splitGo (p :: ps) y 0 []
    simp only [splitGo]
    rw [if_pos hpre]
    have hlen : (p :: ps).length - 1 = ps.length := by simp
    rw [hlen, hskip]
    simp
  | cons c x' ih =>
    intro y acc h
    rw [show (c :: x') ++ (p :: ps).dropLast = c :: (x' ++ (p :: ps).dropLast) from rfl] at h
    rw [containsL, Bool.or_eq_false_iff] at h
    have hnp : (p :: ps).isPrefixOf (c :: (x' ++ (p :: ps) ++ y)) = false := by
      rcases hq : (p :: ps).isPrefixOf (c :: (x' ++ (p :: ps) ++ y)) with _ | _
      · rfl
      · exfalso
        have hext := @isPrefixOf_of_isPrefixOf_extend (p :: ps) (c :: x') y
          (by simp) (by simp)
          (show (p :: ps).isPrefixOf ((c :: x') ++ (p :: ps) ++ y) = true from
            (by rw [show (c :: x') ++ (p :: ps) ++ y = c :: (x' ++ (p :: ps) ++ y) from rfl]; exact hq))
        rw [show (c :: x') ++ (p :: ps).dropLast = c :: (x' ++ (p :: ps).dropLast) from rfl] at hext
        rw [hext] at h
        exact absurd h.1 (by simp)
    show splitGo (p :: ps) (c :: (x' ++ (p :: ps) ++ y)) 0 acc = _
    simp only [splitGo]
    rw [hnp]
    simp only [Bool.false_eq_true, if_false]
    rw [ih y (c :: acc) h.2]
    simp

theorem splitOnL_first {p : Char} {ps x y : Str}
    (h : containsL (p :: ps) (x ++ (p :: ps).dropLast) = false) :
    splitOnL (p :: ps) (x ++ (p :: ps) ++ y) = x :: splitOnL (p :: ps) y := by
  simpa [splitOnL] using splitGo_first y [] h

/-! ### Occurrence analysis for well-formed listen URIs -/

theorem contains_sep_false {s : Str} (hs : ':' ∉ s) :
    containsL [':', '/', '/'] (s ++ [':', '/']) = false := by
  refine containsL_eq_false ?_
  intro x y hxy
  rw [List.append_assoc] at hxy
  have h := uniqueCharSplit (v := ['/']) hs (by decide) x ('/' :: '/' :: y) hxy
  simp at h

theorem contains_sep_rest_plain_false {hp w : Str} (h1 : ':' ∉ hp) (h2 : ':' ∉ w)
    (h3 : ∀ y, w ≠ '/' :: y) :
    containsL [':', '/', '/'] (hp ++ ':' :: w) = false := by
  refine containsL_eq_false ?_
  intro x y hxy
  rw [List.append_assoc] at hxy
  have h := uniqueCharSplit h1 h2 x ('/' :: '/' :: y) hxy
  exact h3 ('/' :: y) h.2.symm

theorem contains_unix_plain_false {s hp w : Str} (hs : ':' ∉ s)
    (hsu : ¬ ("unix".data <:+ s)) (h1 : ':' ∉ hp) (h2 : ':' ∉ w)
    (h3 : ∀ y, w ≠ '/' :: y) :
    containsL ("unix://".data) (s ++ ':' :: '/' :: '/' :: (hp ++ ':' :: w)) = false := by
  refine containsL_eq_false ?_
  intro x y hxy
  rw [List.append_assoc] at hxy
  have hxy2 : s ++ ':' :: ('/' :: '/' :: (hp ++ ':' :: w))
      = (x ++ ['u', 'n', 'i', 'x']) ++ ':' :: ('/' :: '/' :: y) := by
    rw [List.append_assoc]
    exact hxy
  rcases firstCharSplit hs _ _ _ hxy2 with ⟨hx, _⟩ | ⟨x', _, hz⟩
  · exact hsu ⟨x, hx⟩
  · cases x' with
    | nil => exact absurd (List.cons_eq_cons.mp hz).1 (by decide)
    | cons a x'' =>
      rcases List.cons_eq_cons.mp hz with ⟨_, hz2⟩
      cases x'' with
      | nil => exact absurd (List.cons_eq_cons.mp hz2).1 (by decide)
      | cons b x''' =>
        rcases List.cons_eq_cons.mp hz2 with ⟨_, hz3⟩
        have h := uniqueCharSplit h1 h2 x''' ('/' :: '/' :: y) hz3
        exact h3 ('/' :: y) h.2.symm

theorem contains_brk_plain_false {hp w : Str} (h1 : ':' ∉ hp) (h2 : ':' ∉ w)
    (hsuf : ¬ ([']'] <:+ hp)) :
    containsL [']', ':'] (hp ++ ':' :: w) = false := by
  refine containsL_eq_false ?_
  intro x y hxy
  have hxy2 : hp ++ ':' :: w = (x ++ [']']) ++ ':' :: y := by
    rw [List.append_assoc] at hxy
    rw [List.append_assoc]
    exact hxy
  have h := uniqueCharSplit h1 h2 _ _ hxy2
  exact hsuf ⟨x, h.1⟩

theorem splitOnL_colon_plain {hp w : Str} (h1 : ':' ∉ hp) (h2 : ':' ∉ w) :
    splitOnL [':'] (hp ++ ':' :: w) = [hp, w] := by
  rw [show hp ++ ':' :: w = hp ++ [':'] ++ w by simp]
  rw [splitOnL_first (by simpa using containsL_single_eq_false h1)]
  rw [splitOnL_of_not_contains (containsL_single_eq_false h2)]

/-- In `g ++ "]:" ++ w` no `':'` is immediately followed by `'/'`, provided
`g` is slash-free, `w` is colon-free and `w` does not start with a slash. -/
theorem noColonSlash {w : Str} (h2 : ':' ∉ w) (h3 : ∀ y, w ≠ '/' :: y) :
    ∀ {g : Str}, '/' ∉ g → ∀ x y, g ++ ']' :: ':' :: w ≠ x ++ ':' :: '/' :: y := by
  intro g
  induction g with
  | nil =>
    intro _ x y hxy
    cases x with
    | nil => exact absurd (List.cons_eq_cons.mp hxy).1 (by decide)
    | cons a x' =>
      rcases List.cons_eq_cons.mp hxy with ⟨_, htail⟩
      cases x' with
      | nil =>
        rcases List.cons_eq_cons.mp htail with ⟨_, hw⟩
        exact h3 y hw
      | cons b x'' =>
        rcases List.cons_eq_cons.mp htail with ⟨_, hw⟩
        exact absurd (mem_of_middle hw) h2
  | cons c g' ih =>
    intro hg x y hxy
    cases x with
    | nil =>
      rcases List.cons_eq_cons.mp hxy with ⟨_, htail⟩
      cases g' with
      | nil => exact absurd (List.cons_eq_cons.mp htail).1 (by decide)
      | cons d g'' =>
        rcases List.cons_eq_cons.mp htail with ⟨hd, _⟩
        exact hg (by rw [← hd]; exact List.mem_cons_of_mem _ (List.mem_cons_self _ _))
    | cons a x' =>
      rcases List.cons_eq_cons.mp hxy with ⟨_, htail⟩
      have hg' : '/' ∉ g' := fun hmem => hg (List.mem_cons_of_mem _ hmem)
      exact ih hg' x' y htail

theorem contains_sep_rest_brk_false {h6 w : Str} (hg : '/' ∉ h6) (h2 : ':' ∉ w)
    (h3 : ∀ y, w ≠ '/' :: y) :
    containsL [':', '/', '/'] ('[' :: (h6 ++ ']' :: ':' :: w)) = false := by
  refine containsL_eq_false ?_
  intro x y hxy
  have hbr : '/' ∉ '[' :: h6 := by
    intro hmem
    rcases List.mem_cons.mp hmem with h | h
    · exact absurd h (by decide)
    · exact hg h
  refine noColonSlash h2 h3 hbr x ('/' :: y) ?_
  show ('[' :: h6) ++ ']' :: ':' :: w = x ++ ':' :: '/' :: ('/' :: y)
  rw [List.append_assoc] at hxy
  exact hxy

theorem contains_unix_brk_false {s h6 w : Str} (hs : ':' ∉ s)
    (hsu : ¬ ("unix".data <:+ s)) (hg : '/' ∉ h6) (h2 : ':' ∉ w)
    (h3 : ∀ y, w ≠ '/' :: y) :
    containsL ("unix://".data)
      (s ++ ':' :: '/' :: '/' :: ('[' :: (h6 ++ ']' :: ':' :: w))) = false := by
  refine containsL_eq_false ?_
  intro x y hxy
  rw [List.append_assoc] at hxy
  have hxy2 : s ++ ':' :: ('/' :: '/' :: ('[' :: (h6 ++ ']' :: ':' :: w)))
      = (x ++ ['u', 'n', 'i', 'x']) ++ ':' :: ('/' :: '/' :: y) := by
    rw [List.append_assoc]
    exact hxy
  have hbr : '/' ∉ '[' :: h6 := by
    intro hmem
    rcases List.mem_cons.mp hmem with h | h
    · exact absurd h (by decide)
    · exact hg h
  rcases firstCharSplit hs _ _ _ hxy2 with ⟨hx, _⟩ | ⟨x', _, hz⟩
  · exact hsu ⟨x, hx⟩
  · cases x' with
    | nil => exact absurd (List.cons_eq_cons.mp hz).1 (by decide)
    | cons a x'' =>
      rcases List.cons_eq_cons.mp hz with ⟨_, hz2⟩
      cases x'' with
      | nil => exact absurd (List.cons_eq_cons.mp hz2).1 (by decide)
      | cons b x''' =>
        rcases List.cons_eq_cons.mp hz2 with ⟨_, hz3⟩
        refine noColonSlash h2 h3 hbr x''' ('/' :: y) ?_
        show ('[' :: h6) ++ ']' :: ':' :: w = x''' ++ ':' :: '/' :: ('/' :: y)
        exact hz3

theorem contains_brk_true {h6 w : Str} :
    containsL [']', ':'] ('[' :: (h6 ++ ']' :: ':' :: w)) = true := by
  refine containsL_iff.mpr ⟨'[' :: h6, w, ?_⟩
  simp

theorem contains_brkclose_false {h6 : Str} (hb : ']' ∉ h6) :
    containsL [']', ':'] ('[' :: (h6 ++ [']'])) = false := by
  refine containsL_eq_false ?_
  intro x y hxy
  have hb2 : ']' ∉ '[' :: h6 := by
    intro hmem
    rcases List.mem_cons.mp hmem with h | h
    · exact absurd h (by decide)
    · exact hb h
  have h := uniqueCharSplit (c := ']') hb2 (List.not_mem_nil ']') x (':' :: y) (by
    rw [List.append_assoc] at hxy
    exact hxy)
  exact List.cons_ne_nil ':' y h.2

theorem splitOnL_brk {h6 w : Str} (hb : ']' ∉ h6) (h2 : ':' ∉ w) :
    splitOnL [']', ':'] ('[' :: (h6 ++ ']' :: ':' :: w)) = ['[' :: h6, w] := by
  rw [show '[' :: (h6 ++ ']' :: ':' :: w) = ('[' :: h6) ++ [']', ':'] ++ w by simp]
  rw [splitOnL_first (by simpa using contains_brkclose_false hb)]
  rw [splitOnL_of_not_contains ?hw]
  case hw =>
    refine containsL_eq_false ?_
    intro x y hxy
    have : (':') ∈ w := by
      rw [hxy]
      simp
    exact h2 this

theorem ne_slash_append {p : Str} (hpne : p ≠ []) (hp2 : '/' ∉ p) (t : Str) :
    ∀ y, p ++ t ≠ '/' :: y := by
  intro y hy
  cases p with
  | nil => exact hpne rfl
  | cons p0 p' =>
    have h0 : p0 = '/' := (List.cons_eq_cons.mp hy).1
    exact hp2 (by rw [← h0]; exact List.mem_cons_self _ _)

theorem ne_slash {p : Str} (hpne : p ≠ []) (hp2 : '/' ∉ p) :
    ∀ y, p ≠ '/' :: y := by
  intro y hy
  cases p with
  | nil => exact hpne rfl
  | cons p0 p' =>
    have h0 : p0 = '/' := (List.cons_eq_cons.mp hy).1
    exact hp2 (by rw [← h0]; exact List.mem_cons_self _ _)

/-- Evaluation of `convert_listen_to_peer_with_address` when the parse
stages are known and the port component carries no query parameters. -/
theorem convert_eval_noq {L AP P s k a : Str}
    (hunix : containsL ("unix://".data) L = false)
    (hsep : splitOnL ("://".data) L = [s, AP])
    (hport : (if containsL ("]:".data) AP = true then (splitOnL ("]:".data) AP).get? 1
              else (splitOnL (":".data) AP).get? 1) = some P)
    (hq : containsL ("?".data) P = false) :
    convert_listen_to_peer_with_address L k a
      = some (s ++ "://".data ++ a ++ ":".data ++ P ++ "?key=".data ++ k) := by
  unfold convert_listen_to_peer_with_address
  rw [hunix]
  simp only [Bool.false_eq_true, if_false]
  rw [hsep]
  simp only [hport, hq, Bool.false_eq_true, if_false]

/-- Evaluation of `convert_listen_to_peer_with_address` when the parse
stages are known and the port component splits at a `'?'` into a clean
port and query parameters. -/
theorem convert_eval_q {L AP P PC PR s k a : Str}
    (hunix : containsL ("unix://".data) L = false)
    (hsep : splitOnL ("://".data) L = [s, AP])
    (hport : (if containsL ("]:".data) AP = true then (splitOnL ("]:".data) AP).get? 1
              else (splitOnL (":".data) AP).get? 1) = some P)
    (hq : containsL ("?".data) P = true)
    (hqs : splitOnL ("?".data) P = [PC, PR]) :
    convert_listen_to_peer_with_address L k a
      = some (s ++ "://".data ++ a ++ ":".data ++ PC ++ "?key=".data ++ k ++ "&".data ++ PR) := by
  unfold convert_listen_to_peer_with_address
  rw [hunix]
  simp only [Bool.false_eq_true, if_false]
  rw [hsep]
  simp only [hport, hq, if_true, hqs]

/-- Claim C2 (amended): for a well-formed listen URI
`scheme://hostpart:port[?params]` — scheme without `':'`/`'/'` and not
ending in `"unix"` (the source's unix check is a substring test, so any
scheme ending in `"unix"` is treated as local-only), hostpart either
colon-free and not ending in `']'` or a bracketed IPv6 literal, port
non-empty without `':'`, `'/'`, `'?'`, query parameters without `':'` or
`'?'` — the converter returns exactly
`scheme://addr:port?key=key` with the original query parameters appended
after the key parameter. -/
theorem convert_listen_wellformed
    (s hp p qp k a : Str)
    (hs1 : ':' ∉ s) (hsu : ¬ ("unix".data <:+ s))
    (hpne : p ≠ []) (hp1 : ':' ∉ p) (hp2 : '/' ∉ p) (hp3 : '?' ∉ p)
    (hhp : (':' ∉ hp ∧ ¬ ([']'] <:+ hp)) ∨
      ∃ h6, hp = '[' :: (h6 ++ [']']) ∧ '/' ∉ h6 ∧ ']' ∉ h6)
    (hqp : qp = [] ∨ ∃ q, qp = '?' :: q ∧ ':' ∉ q ∧ '?' ∉ q) :
    convert_listen_to_peer_with_address (s ++ "://".data ++ hp ++ ":".data ++ p ++ qp) k a
      = some (s ++ "://".data ++ a ++ ":".data ++ p ++ "?key=".data ++ k ++
          (match qp with
           | [] => ([] : Str)
           | _ :: q => '&' :: q)) := by
  rcases hqp with rfl | ⟨q, rfl, hq1, hq2⟩
  · -- no query parameters
    have hw3 : ∀ y, p ≠ '/' :: y := ne_slash hpne hp2
    rcases hhp with ⟨hhp1, hhp2⟩ | ⟨h6, rfl, hg6, hb6⟩
    · -- plain host
      have hlist : s ++ "://".data ++ hp ++ ":".data ++ p ++ []
          = s ++ ':' :: '/' :: '/' :: (hp ++ ':' :: p) := by simp
      have hunix : containsL ("unix://".data)
          (s ++ ':' :: '/' :: '/' :: (hp ++ ':' :: p)) = false :=
        contains_unix_plain_false hs1 hsu hhp1 hp1 hw3
      have hsep : splitOnL ("://".data) (s ++ ':' :: '/' :: '/' :: (hp ++ ':' :: p))
          = [s, hp ++ ':' :: p] := by
        rw [show s ++ ':' :: '/' :: '/' :: (hp ++ ':' :: p)
              = s ++ [':', '/', '/'] ++ (hp ++ ':' :: p) by simp]
        rw [show ("://".data : Str) = [':', '/', '/'] from rfl]
        rw [splitOnL_first (contains_sep_false hs1)]
        rw [splitOnL_of_not_contains (contains_sep_rest_plain_false hhp1 hp1 hw3)]
      have hbrkf : containsL ("]:".data) (hp ++ ':' :: p) = false :=
        contains_brk_plain_false hhp1 hp1 hhp2
      have hcolon : splitOnL (":".data) (hp ++ ':' :: p) = [hp, p] :=
        splitOnL_colon_plain hhp1 hp1
      have hport : (if containsL ("]:".data) (hp ++ ':' :: p) = true then
            (splitOnL ("]:".data) (hp ++ ':' :: p)).get? 1
          else (splitOnL (":".data) (hp ++ ':' :: p)).get? 1) = some p := by
        rw [hbrkf]
        simp only [Bool.false_eq_true, if_false]
        rw [hcolon]
        rfl
      rw [hlist, convert_eval_noq hunix hsep hport (containsL_single_eq_false hp3)]
      simp
    · -- bracketed IPv6 host
      have hlist : s ++ "://".data ++ ('[' :: (h6 ++ [']'])) ++ ":".data ++ p ++ []
          = s ++ ':' :: '/' :: '/' :: ('[' :: (h6 ++ ']' :: ':' :: p)) := by simp
      have hunix : containsL ("unix://".data)
          (s ++ ':' :: '/' :: '/' :: ('[' :: (h6 ++ ']' :: ':' :: p))) = false :=
        contains_unix_brk_false hs1 hsu hg6 hp1 hw3
      have hsep : splitOnL ("://".data)
          (s ++ ':' :: '/' :: '/' :: ('[' :: (h6 ++ ']' :: ':' :: p)))
          = [s, '[' :: (h6 ++ ']' :: ':' :: p)] := by
        rw [show s ++ ':' :: '/' :: '/' :: ('[' :: (h6 ++ ']' :: ':' :: p))
              = s ++ [':', '/', '/'] ++ ('[' :: (h6 ++ ']' :: ':' :: p)) by simp]
        rw [show ("://".data : Str) = [':', '/', '/'] from rfl]
        rw [splitOnL_first (contains_sep_false hs1)]
        rw [splitOnL_of_not_contains (contains_sep_rest_brk_false hg6 hp1 hw3)]
      have hbrkt : containsL ("]:".data) ('[' :: (h6 ++ ']' :: ':' :: p)) = true :=
        contains_brk_true
      have hbrks : splitOnL ("]:".data) ('[' :: (h6 ++ ']' :: ':' :: p))
          = ['[' :: h6, p] := splitOnL_brk hb6 hp1
      have hport : (if containsL ("]:".data) ('[' :: (h6 ++ ']' :: ':' :: p)) = true then
            (splitOnL ("]:".data) ('[' :: (h6 ++ ']' :: ':' :: p))).get? 1
          else (splitOnL (":".data) ('[' :: (h6 ++ ']' :: ':' :: p))).get? 1) = some p := by
        rw [hbrkt]
        simp only [if_true]
        rw [hbrks]
        rfl
      rw [hlist, convert_eval_noq hunix hsep hport (containsL_single_eq_false hp3)]
      simp
  · -- query parameters present: qp = '?' :: q
    have hw2 : ':' ∉ p ++ '?' :: q := by
      intro h
      rcases List.mem_append.mp h with h | h
      · exact hp1 h
      · rcases List.mem_cons.mp h with h | h
        · exact absurd h (by decide)
        · exact hq1 h
    have hw3 : ∀ y, p ++ '?' :: q ≠ '/' :: y := ne_slash_append hpne hp2 ('?' :: q)
    have hqt : containsL ("?".data) (p ++ '?' :: q) = true :=
      containsL_iff.mpr ⟨p, q, by simp⟩
    have hqs : splitOnL ("?".data) (p ++ '?' :: q) = [p, q] := by
      rw [show ("?".data : Str) = ['?'] from rfl]
      rw [show p ++ '?' :: q = p ++ ['?'] ++ q by simp]
      rw [splitOnL_first (by
        rw [show (['?'] : Str).dropLast = [] from rfl, List.append_nil]
        exact containsL_single_eq_false hp3)]
      rw [splitOnL_of_not_contains (containsL_single_eq_false hq2)]
    rcases hhp with ⟨hhp1, hhp2⟩ | ⟨h6, rfl, hg6, hb6⟩
    · -- plain host
      have hlist : s ++ "://".data ++ hp ++ ":".data ++ p ++ '?' :: q
          = s ++ ':' :: '/' :: '/' :: (hp ++ ':' :: (p ++ '?' :: q)) := by simp
      have hunix : containsL ("unix://".data)
          (s ++ ':' :: '/' :: '/' :: (hp ++ ':' :: (p ++ '?' :: q))) = false :=
        contains_unix_plain_false hs1 hsu hhp1 hw2 hw3
      have hsep : splitOnL ("://".data)
          (s ++ ':' :: '/' :: '/' :: (hp ++ ':' :: (p ++ '?' :: q)))
          = [s, hp ++ ':' :: (p ++ '?' :: q)] := by
        rw [show s ++ ':' :: '/' :: '/' :: (hp ++ ':' :: (p ++ '?' :: q))
              = s ++ [':', '/', '/'] ++ (hp ++ ':' :: (p ++ '?' :: q)) by simp]
        rw [show ("://".data : Str) = [':', '/', '/'] from rfl]
        rw [splitOnL_first (contains_sep_false hs1)]
        rw [splitOnL_of_not_contains (contains_sep_rest_plain_false hhp1 hw2 hw3)]
      have hbrkf : containsL ("]:".data) (hp ++ ':' :: (p ++ '?' :: q)) = false :=
        contains_brk_plain_false hhp1 hw2 hhp2
      have hcolon : splitOnL (":".data) (hp ++ ':' :: (p ++ '?' :: q))
          = [hp, p ++ '?' :: q] := splitOnL_colon_plain hhp1 hw2
      have hport : (if containsL ("]:".data) (hp ++ ':' :: (p ++ '?' :: q)) = true then
            (splitOnL ("]:".data) (hp ++ ':' :: (p ++ '?' :: q))).get? 1
          else (splitOnL (":".data) (hp ++ ':' :: (p ++ '?' :: q))).get? 1)
          = some (p ++ '?' :: q) := by
        rw [hbrkf]
        simp only [Bool.false_eq_true, if_false]
        rw [hcolon]
        rfl
      rw [hlist, convert_eval_q hunix hsep hport hqt hqs]
      simp
    · -- bracketed IPv6 host
      have hlist : s ++ "://".data ++ ('[' :: (h6 ++ [']'])) ++ ":".data ++ p ++ '?' :: q
          = s ++ ':' :: '/' :: '/' :: ('[' :: (h6 ++ ']' :: ':' :: (p ++ '?' :: q))) := by simp
      have hunix : containsL ("unix://".data)
          (s ++ ':' :: '/' :: '/' :: ('[' :: (h6 ++ ']' :: ':' :: (p ++ '?' :: q)))) = false :=
        contains_unix_brk_false hs1 hsu hg6 hw2 hw3
      have hsep : splitOnL ("://".data)
          (s ++ ':' :: '/' :: '/' :: ('[' :: (h6 ++ ']' :: ':' :: (p ++ '?' :: q))))
          = [s, '[' :: (h6 ++ ']' :: ':' :: (p ++ '?' :: q))] := by
        rw [show s ++ ':' :: '/' :: '/' :: ('[' :: (h6 ++ ']' :: ':' :: (p ++ '?' :: q)))
              = s ++ [':', '/', '/'] ++ ('[' :: (h6 ++ ']' :: ':' :: (p ++ '?' :: q))) by simp]
        rw [show ("://".data : Str) = [':', '/', '/'] from rfl]
        rw [splitOnL_first (contains_sep_false hs1)]
        rw [splitOnL_of_not_contains (contains_sep_rest_brk_false hg6 hw2 hw3)]
      have hbrkt : containsL ("]:".data) ('[' :: (h6 ++ ']' :: ':' :: (p ++ '?' :: q))) = true :=
        contains_brk_true
      have hbrks : splitOnL ("]:".data) ('[' :: (h6 ++ ']' :: ':' :: (p ++ '?' :: q)))
          = ['[' :: h6, p ++ '?' :: q] := splitOnL_brk hb6 hw2
      have hport : (if containsL ("]:".data) ('[' :: (h6 ++ ']' :: ':' :: (p ++ '?' :: q))) = true then
            (splitOnL ("]:".data) ('[' :: (h6 ++ ']' :: ':' :: (p ++ '?' :: q)))).get? 1
          else (splitOnL (":".data) ('[' :: (h6 ++ ']' :: ':' :: (p ++ '?' :: q)))).get? 1)
          = some (p ++ '?' :: q) := by
        rw [hbrkt]
        simp only [if_true]
        rw [hbrks]
        rfl
      rw [hlist, convert_eval_q hunix hsep hport hqt hqs]
      simp

/-! ### Topology synthesis (generate_configs) -/

theorem foldl_upd_not_mem {f : Node → YggdrasilConfig} :
    ∀ (l : List Node) (init : Str → Option YggdrasilConfig) (k : Str),
      k ∉ l.map (fun n => n.id) →
      l.foldl (fun m n => fun k' => if k' = n.id then some (f n) else m k') init k = init k := by
  intro l
  induction l with
  | nil => intro init k _; rfl
  | cons n rest ih =>
    intro init k hk
    rw [List.map_cons] at hk
    rw [List.foldl_cons, ih _ k (fun h => hk (List.mem_cons_of_mem _ h))]
    have hne : k ≠ n.id := fun h => hk (by rw [h]; exact List.mem_cons_self _ _)
    simp [hne]

theorem foldl_upd_mem {f : Node → YggdrasilConfig} :
    ∀ (l : List Node) (init : Str → Option YggdrasilConfig) (A : Node),
      A ∈ l → (l.map (fun n => n.id)).Nodup →
      l.foldl (fun m n => fun k' => if k' = n.id then some (f n) else m k') init A.id
        = some (f A) := by
  intro l
  induction l with
  | nil => intro init A hA _; exact absurd hA (List.not_mem_nil A)
  | cons n rest ih =>
    intro init A hA hnd
    rw [List.map_cons, List.nodup_cons] at hnd
    rw [List.foldl_cons]
    rcases List.mem_cons.mp hA with rfl | hA'
    · rw [foldl_upd_not_mem rest _ A.id hnd.1]
      simp
    · exact ih _ A hA' hnd.2

/-- Lookup in the synthesized configuration map: with pairwise-distinct
ids, each node is mapped to its own `node_config`. -/
theorem generate_configs_lookup {nodes : List Node} {A : Node}
    (hd : (nodes.map (fun n => n.id)).Nodup) (hA : A ∈ nodes) :
    generate_configs nodes A.id = some (node_config nodes A) :=
  foldl_upd_mem nodes _ A hA hd

theorem bind_guard_eq_filter_bind (nodes : List Node) (A : Node) (f : Node → List Str) :
    nodes.bind (fun other => if other.id ≠ A.id then f other else [])
      = (nodes.filter (fun B => decide (B.id ≠ A.id))).bind f := by
  induction nodes with
  | nil => rfl
  | cons n rest ih =>
    by_cases h : n.id = A.id
    · simp [List.filter_cons, h] at ih ⊢
      exact ih
    · simp [List.filter_cons, h] at ih ⊢
      exact ih

/-- Claim C1: for node sets with pairwise-distinct ids, every node's
synthesized configuration allows exactly the other nodes' public keys
(its own key excluded), and its peer list is exactly one entry per
(other node, listen endpoint, reachable address — `127.0.0.1` when the
node reports none) combination for which the converter yields a peer URI;
every peer entry stems from another node's record, and unix-transport
listen endpoints never produce an entry. -/
theorem generate_configs_topology (nodes : List Node) (A : Node)
    (hd : (nodes.map (fun n => n.id)).Nodup) (hA : A ∈ nodes) :
    ∃ cfg, generate_configs nodes A.id = some cfg ∧
      (∀ pk, pk ∈ cfg.allowed_public_keys ↔
        (pk ≠ A.public_key ∧ ∃ B ∈ nodes, B.public_key = pk)) ∧
      cfg.peers = (nodes.filter (fun B => decide (B.id ≠ A.id))).bind (fun B =>
          B.listen.bind (fun L =>
            (if B.addresses = [] then ["127.0.0.1".data] else B.addresses).filterMap
              (fun addr => convert_listen_to_peer_with_address L B.public_key addr))) ∧
      (∀ pe ∈ cfg.peers, ∃ B, B ∈ nodes ∧ B.id ≠ A.id ∧ ∃ L ∈ B.listen,
          ∃ addr ∈ (if B.addresses = [] then ["127.0.0.1".data] else B.addresses),
            convert_listen_to_peer_with_address L B.public_key addr = some pe) ∧
      (∀ L pk addr, containsL ("unix://".data) L = true →
        convert_listen_to_peer_with_address L pk addr = none) := by
  have hpeers : (node_config nodes A).peers
      = (nodes.filter (fun B => decide (B.id ≠ A.id))).bind (fun B =>
          B.listen.bind (fun L =>
            (if B.addresses = [] then ["127.0.0.1".data] else B.addresses).filterMap
              (fun addr => convert_listen_to_peer_with_address L B.public_key addr))) :=
    bind_guard_eq_filter_bind nodes A _
  refine ⟨node_config nodes A, generate_configs_lookup hd hA, ?_, hpeers, ?_, ?_⟩
  · intro pk
    show pk ∈ (nodes.map (fun n => n.public_key)).filter
        (fun x => decide (x ≠ A.public_key)) ↔ _
    constructor
    · intro h
      obtain ⟨hmem, hpk⟩ := List.mem_filter.mp h
      obtain ⟨B, hB, hBpk⟩ := List.mem_map.mp hmem
      exact ⟨of_decide_eq_true hpk, B, hB, hBpk⟩
    · rintro ⟨hne, B, hB, hBpk⟩
      exact List.mem_filter.mpr ⟨List.mem_map.mpr ⟨B, hB, hBpk⟩, decide_eq_true hne⟩
  · intro pe hpe
    rw [hpeers] at hpe
    obtain ⟨B, hBf, hpe2⟩ := List.mem_bind.mp hpe
    obtain ⟨hBmem, hBid⟩ := List.mem_filter.mp hBf
    obtain ⟨L, hL, hpe3⟩ := List.mem_bind.mp hpe2
    obtain ⟨addr, haddr, hconv⟩ := List.mem_filterMap.mp hpe3
    exact ⟨B, hBmem, of_decide_eq_true hBid, L, hL, addr, haddr, hconv⟩
  · intro L pk addr h
    unfold convert_listen_to_peer_with_address
    rw [h, if_pos rfl]

/-- Witness for C1: the specification's two-node example. -/
theorem generate_configs_topology_witness :
    ∃ cfg, generate_configs [nodeA, nodeB] nodeA.id = some cfg ∧
      (∀ pk, pk ∈ cfg.allowed_public_keys ↔
        (pk ≠ nodeA.public_key ∧ ∃ B ∈ [nodeA, nodeB], B.public_key = pk)) ∧
      cfg.peers = ([nodeA, nodeB].filter (fun B => decide (B.id ≠ nodeA.id))).bind (fun B =>
          B.listen.bind (fun L =>
            (if B.addresses = [] then ["127.0.0.1".data] else B.addresses).filterMap
              (fun addr => convert_listen_to_peer_with_address L B.public_key addr))) ∧
      (∀ pe ∈ cfg.peers, ∃ B, B ∈ [nodeA, nodeB] ∧ B.id ≠ nodeA.id ∧ ∃ L ∈ B.listen,
          ∃ addr ∈ (if B.addresses = [] then ["127.0.0.1".data] else B.addresses),
            convert_listen_to_peer_with_address L B.public_key addr = some pe) ∧
      (∀ L pk addr, containsL ("unix://".data) L = true →
        convert_listen_to_peer_with_address L pk addr = none) :=
  generate_configs_topology [nodeA, nodeB] nodeA (by decide) (by decide)

/-- Counterexample for C2 as stated: the scheme `tcpunix` is not `unix`,
yet the converter returns nothing for `tcpunix://0.0.0.0:9001`, because
the source's local-only check is a substring test for `"unix://"`. -/
theorem convert_listen_scheme_counterexample :
    ("tcpunix".data : Str) ≠ "unix".data ∧
    convert_listen_to_peer_with_address ("tcpunix://0.0.0.0:9001".data)
        ("PA".data) ("10.0.0.2".data) = none ∧
    convert_listen_to_peer_with_address ("tcpunix://0.0.0.0:9001".data)
        ("PA".data) ("10.0.0.2".data)
      ≠ some ("tcpunix://10.0.0.2:9001?key=PA".data) := by
  refine ⟨by decide, by decide, ?_⟩
  intro h
  rw [show convert_listen_to_peer_with_address ("tcpunix://0.0.0.0:9001".data)
      ("PA".data) ("10.0.0.2".data) = none by decide] at h
  exact Option.noConfusion h

/-- Witness for the amended C2: the specification's own example listen
URI, evaluated through `convert_listen_wellformed`. -/
theorem convert_listen_wellformed_witness :
    convert_listen_to_peer_with_address
        ("tcp".data ++ "://".data ++ "0.0.0.0".data ++ ":".data ++ "9001".data ++ [])
        ("PA".data) ("10.0.0.2".data)
      = some ("tcp".data ++ "://".data ++ "10.0.0.2".data ++ ":".data ++ "9001".data ++
          "?key=".data ++ "PA".data ++
          (match ([] : Str) with
           | [] => ([] : Str)
           | _ :: q => '&' :: q)) :=
  convert_listen_wellformed ("tcp".data) ("0.0.0.0".data) ("9001".data) [] ("PA".data)
    ("10.0.0.2".data) (by decide) (by decide) (by decide) (by decide) (by decide) (by decide)
    (Or.inl ⟨by decide, by decide⟩) (Or.inl rfl)

/-! ### Robustness of synthesis against malformed listen URIs (C3) -/

theorem convert_none_of_unparseable {u : Str}
    (hu : (splitOnL ("://".data) u).length ≠ 2) :
    ∀ pk addr, convert_listen_to_peer_with_address u pk addr = none := by
  intro pk addr
  unfold convert_listen_to_peer_with_address
  rcases hx : containsL ("unix://".data) u with _ | _
  · simp only [Bool.false_eq_true, if_false]
    rcases hl : splitOnL ("://".data) u with _ | ⟨a, _ | ⟨b, _ | ⟨c, t⟩⟩⟩
    · rfl
    · rfl
    · exact absurd (by simp [hl]) hu
    · rfl
  · rw [if_pos rfl]

theorem peers_bind_congr (pre post : List Node) (nd : Node) (l1 l2 : List Str) (u : Str)
    (hnone : ∀ pk addr, convert_listen_to_peer_with_address u pk addr = none) (tid : Str) :
    (pre ++ { nd with listen := l1 ++ u :: l2 } :: post).bind (fun other =>
        if other.id ≠ tid then
          other.listen.bind (fun listen_addr =>
            (if other.addresses = [] then ["127.0.0.1".data] else other.addresses).filterMap
              (fun address => convert_listen_to_peer_with_address listen_addr other.public_key address))
        else [])
      = (pre ++ { nd with listen := l1 ++ l2 } :: post).bind (fun other =>
        if other.id ≠ tid then
          other.listen.bind (fun listen_addr =>
            (if other.addresses = [] then ["127.0.0.1".data] else other.addresses).filterMap
              (fun address => convert_listen_to_peer_with_address listen_addr other.public_key address))
        else []) := by
  have hnil : ∀ (addrs : List Str) pk,
      addrs.filterMap (fun address => convert_listen_to_peer_with_address u pk address) = [] :=
    fun addrs pk => List.filterMap_eq_nil.mpr (fun a _ => hnone pk a)
  by_cases hid : nd.id ≠ tid
  · simp [List.append_bind, List.cons_bind, hid, hnil]
  · have hid' : nd.id = tid := not_not.mp hid
    simp [List.append_bind, List.cons_bind, hid']

theorem node_config_congr (pre post : List Node) (nd : Node) (l1 l2 : List Str) (u : Str)
    (hnone : ∀ pk addr, convert_listen_to_peer_with_address u pk addr = none) (X : Node) :
    node_config (pre ++ { nd with listen := l1 ++ u :: l2 } :: post) X
      = node_config (pre ++ { nd with listen := l1 ++ l2 } :: post) X := by
  have hmap : (pre ++ { nd with listen := l1 ++ u :: l2 } :: post).map (fun n => n.public_key)
      = (pre ++ { nd with listen := l1 ++ l2 } :: post).map (fun n => n.public_key) := by simp
  have hbind := peers_bind_congr pre post nd l1 l2 u hnone X.id
  show { yggdrasil_config_default with
      private_key := X.private_key
      listen := X.listen
      allowed_public_keys := ((pre ++ { nd with listen := l1 ++ u :: l2 } :: post).map
        (fun (n : Node) => n.public_key)).filter (fun k => decide (k ≠ X.public_key))
      peers := (pre ++ { nd with listen := l1 ++ u :: l2 } :: post).bind (fun other =>
        if other.id ≠ X.id then
          other.listen.bind (fun listen_addr =>
            (if other.addresses = [] then ["127.0.0.1".data] else other.addresses).filterMap
              (fun address => convert_listen_to_peer_with_address listen_addr other.public_key address))
        else [])
      node_info := [("name".data, X.name)] }
    = { yggdrasil_config_default with
      private_key := X.private_key
      listen := X.listen
      allowed_public_keys := ((pre ++ { nd with listen := l1 ++ l2 } :: post).map
        (fun (n : Node) => n.public_key)).filter (fun k => decide (k ≠ X.public_key))
      peers := (pre ++ { nd with listen := l1 ++ l2 } :: post).bind (fun other =>
        if other.id ≠ X.id then
          other.listen.bind (fun listen_addr =>
            (if other.addresses = [] then ["127.0.0.1".data] else other.addresses).filterMap
              (fun address => convert_listen_to_peer_with_address listen_addr other.public_key address))
        else [])
      node_info := [("name".data, X.name)] }
  rw [hmap, hbind]

theorem foldl_config_eq_map (f : Node → YggdrasilConfig) :
    ∀ (l : List Node) (init : Str → Option YggdrasilConfig) (k : Str) (acc : Option Node),
      init k = acc.map f →
      l.foldl (fun (m : Str → Option YggdrasilConfig) (n : Node) => fun k' =>
          if k' = n.id then some (f n) else m k') init k
        = (l.foldl (fun (a : Option Node) (n : Node) =>
            if n.id = k then some n else a) acc).map f := by
  intro l
  induction l with
  | nil => intro init k acc h; simpa using h
  | cons n rest ih =>
    intro init k acc h
    rw [List.foldl_cons, List.foldl_cons]
    apply ih
    by_cases hk : k = n.id
    · simp [hk]
    · have hk2 : ¬(n.id = k) := fun hh => hk hh.symm
      simp [hk, hk2, h]

/-- Model of `generate_configs` looks up the last record with the given id and
applies `node_config` to it. -/
theorem generate_configs_eq_findLast (nodes : List Node) (k : Str) :
    generate_configs nodes k
      = (nodes.foldl (fun (a : Option Node) (n : Node) =>
          if n.id = k then some n else a) none).map (node_config nodes) :=
  foldl_config_eq_map (node_config nodes) nodes _ k none rfl

theorem findLast_congr_ne (pre post : List Node) (nd : Node) (lA lB : List Str) (k : Str)
    (hk : k ≠ nd.id) :
    (pre ++ { nd with listen := lA } :: post).foldl
        (fun (a : Option Node) (n : Node) => if n.id = k then some n else a) none
      = (pre ++ { nd with listen := lB } :: post).foldl
        (fun (a : Option Node) (n : Node) => if n.id = k then some n else a) none := by
  simp only [List.foldl_append, List.foldl_cons]
  rw [if_neg (fun h => hk (Eq.symm h)), if_neg (fun h => hk (Eq.symm h))]

theorem foldl_find_pair (k : Str) :
    ∀ (l : List Node) (a b : Node),
      l.foldl (fun (acc : Option Node) (n : Node) => if n.id = k then some n else acc) (some a)
        = l.foldl (fun (acc : Option Node) (n : Node) =>
            if n.id = k then some n else acc) (some b)
      ∨ (l.foldl (fun (acc : Option Node) (n : Node) =>
            if n.id = k then some n else acc) (some a) = some a
        ∧ l.foldl (fun (acc : Option Node) (n : Node) =>
            if n.id = k then some n else acc) (some b) = some b) := by
  intro l
  induction l with
  | nil => intro a b; right; exact ⟨rfl, rfl⟩
  | cons n rest ih =>
    intro a b
    rw [List.foldl_cons, List.foldl_cons]
    by_cases h : n.id = k
    · rw [if_pos h, if_pos h]
      left
      rfl
    · rw [if_neg h, if_neg h]
      exact ih a b

theorem node_config_bad_good (pre post : List Node) (nd : Node) (l1 l2 : List Str) (u : Str)
    (hnone : ∀ pk addr, convert_listen_to_peer_with_address u pk addr = none) :
    (node_config (pre ++ { nd with listen := l1 ++ u :: l2 } :: post)
        { nd with listen := l1 ++ u :: l2 }).peers
      = (node_config (pre ++ { nd with listen := l1 ++ l2 } :: post)
        { nd with listen := l1 ++ l2 }).peers
    ∧ (node_config (pre ++ { nd with listen := l1 ++ u :: l2 } :: post)
        { nd with listen := l1 ++ u :: l2 }).allowed_public_keys
      = (node_config (pre ++ { nd with listen := l1 ++ l2 } :: post)
        { nd with listen := l1 ++ l2 }).allowed_public_keys := by
  constructor
  · show (pre ++ { nd with listen := l1 ++ u :: l2 } :: post).bind (fun other =>
        if other.id ≠ nd.id then
          other.listen.bind (fun listen_addr =>
            (if other.addresses = [] then ["127.0.0.1".data] else other.addresses).filterMap
              (fun address => convert_listen_to_peer_with_address listen_addr other.public_key address))
        else [])
      = (pre ++ { nd with listen := l1 ++ l2 } :: post).bind (fun other =>
        if other.id ≠ nd.id then
          other.listen.bind (fun listen_addr =>
            (if other.addresses = [] then ["127.0.0.1".data] else other.addresses).filterMap
              (fun address => convert_listen_to_peer_with_address listen_addr other.public_key address))
        else [])
    exact peers_bind_congr pre post nd l1 l2 u hnone nd.id
  · show ((pre ++ { nd with listen := l1 ++ u :: l2 } :: post).map
        (fun (n : Node) => n.public_key)).filter (fun k => decide (k ≠ nd.public_key))
      = ((pre ++ { nd with listen := l1 ++ l2 } :: post).map
        (fun (n : Node) => n.public_key)).filter (fun k => decide (k ≠ nd.public_key))
    rw [show (pre ++ { nd with listen := l1 ++ u :: l2 } :: post).map
        (fun (n : Node) => n.public_key)
      = (pre ++ { nd with listen := l1 ++ l2 } :: post).map
        (fun (n : Node) => n.public_key) by simp]

/-- Claim C3: a listen URI on which the scheme split fails is converted to
nothing for every key and address (the converter is total and signals no
error), and inserting such a URI into one node's listen list leaves every
other node's synthesized configuration unchanged and leaves the holder's
peer list and allowed keys unchanged. -/
theorem generate_configs_malformed_listen_robust
    (pre post : List Node) (nd : Node) (l1 l2 : List Str) (u : Str)
    (hu : (splitOnL ("://".data) u).length ≠ 2) :
    (∀ pk addr, convert_listen_to_peer_with_address u pk addr = none) ∧
    (∀ k, k ≠ nd.id →
      generate_configs (pre ++ { nd with listen := l1 ++ u :: l2 } :: post) k
        = generate_configs (pre ++ { nd with listen := l1 ++ l2 } :: post) k) ∧
    (∀ cfg cfg',
      generate_configs (pre ++ { nd with listen := l1 ++ u :: l2 } :: post) nd.id = some cfg →
      generate_configs (pre ++ { nd with listen := l1 ++ l2 } :: post) nd.id = some cfg' →
      cfg.peers = cfg'.peers ∧ cfg.allowed_public_keys = cfg'.allowed_public_keys) := by
  have hnone := convert_none_of_unparseable hu
  refine ⟨hnone, ?_, ?_⟩
  · intro k hk
    rw [generate_configs_eq_findLast, generate_configs_eq_findLast,
      findLast_congr_ne pre post nd (l1 ++ u :: l2) (l1 ++ l2) k hk]
    rcases ho : (pre ++ { nd with listen := l1 ++ l2 } :: post).foldl
        (fun (a : Option Node) (n : Node) => if n.id = k then some n else a) none with _ | X
    · rfl
    · show some (node_config (pre ++ { nd with listen := l1 ++ u :: l2 } :: post) X)
        = some (node_config (pre ++ { nd with listen := l1 ++ l2 } :: post) X)
      rw [node_config_congr pre post nd l1 l2 u hnone X]
  · intro cfg cfg' hc hc'
    rw [generate_configs_eq_findLast] at hc hc'
    simp only [List.foldl_append, List.foldl_cons, if_true] at hc hc'
    rcases foldl_find_pair nd.id post { nd with listen := l1 ++ u :: l2 }
        { nd with listen := l1 ++ l2 } with heq | ⟨ha, hb⟩
    · rw [heq] at hc
      rcases hX : post.foldl (fun (acc : Option Node) (n : Node) =>
          if n.id = nd.id then some n else acc) (some { nd with listen := l1 ++ l2 }) with _ | X
      · rw [hX] at hc
        exact absurd hc (by simp)
      · rw [hX] at hc hc'
        simp only [Option.map_some', Option.some.injEq] at hc hc'
        rw [← hc, ← hc', node_config_congr pre post nd l1 l2 u hnone X]
        exact ⟨rfl, rfl⟩
    · rw [ha] at hc
      rw [hb] at hc'
      simp only [Option.map_some', Option.some.injEq] at hc hc'
      rw [← hc, ← hc']
      exact node_config_bad_good pre post nd l1 l2 u hnone

/-- Witness for C3: inserting the unparseable listen URI `garbage` into
`nodeA`'s listen list in the two-node example. -/
theorem generate_configs_malformed_listen_robust_witness :
    (∀ pk addr, convert_listen_to_peer_with_address ("garbage".data) pk addr = none) ∧
    (∀ k, k ≠ nodeA.id →
      generate_configs ([] ++ { nodeA with listen := [] ++ "garbage".data :: [] } :: [nodeB]) k
        = generate_configs ([] ++ { nodeA with listen := [] ++ [] } :: [nodeB]) k) ∧
    (∀ cfg cfg',
      generate_configs ([] ++ { nodeA with listen := [] ++ "garbage".data :: [] } :: [nodeB])
          nodeA.id = some cfg →
      generate_configs ([] ++ { nodeA with listen := [] ++ [] } :: [nodeB]) nodeA.id = some cfg' →
      cfg.peers = cfg'.peers ∧ cfg.allowed_public_keys = cfg'.allowed_public_keys) :=
  generate_configs_malformed_listen_robust [] [nodeB] nodeA [] [] ("garbage".data) (by decide)

/-! ### Session handlers: Register and UpdateAddresses (C4, C5) -/

theorem get_node_by_id_update (db : List Node) (tid : Str) (g : Node → Node)
    (hg : ∀ n, (g n).id = n.id) :
    get_node_by_id (db.map (fun n => if n.id = tid then g n else n)) tid
      = (get_node_by_id db tid).map g := by
  induction db with
  | nil => rfl
  | cons n d ih =>
    by_cases h : n.id = tid
    · have h1 : ((g n).id == tid) = true := beq_iff_eq.mpr (by rw [hg n]; exact h)
      have h2 : (n.id == tid) = true := beq_iff_eq.mpr h
      show ((if n.id = tid then g n else n) :: d.map _).find? (fun m => m.id == tid)
        = Option.map g ((n :: d).find? (fun m => m.id == tid))
      rw [if_pos h]
      simp [List.find?, h1, h2]
    · have h0 : (n.id == tid) = false := beq_eq_false_iff_ne.mpr h
      show ((if n.id = tid then g n else n) :: d.map _).find? (fun m => m.id == tid)
        = Option.map g ((n :: d).find? (fun m => m.id == tid))
      rw [if_neg h]
      simp only [List.find?, h0]
      exact ih

theorem get_node_by_id_of_mem {db : List Node} {ex : Node}
    (hd : (db.map (fun n => n.id)).Nodup) (hex : ex ∈ db) :
    get_node_by_id db ex.id = some ex := by
  induction db with
  | nil => cases hex
  | cons n d ih =>
    rw [List.map_cons, List.nodup_cons] at hd
    rcases List.mem_cons.mp hex with rfl | hex'
    · show (ex :: d).find? (fun m => m.id == ex.id) = some ex
      simp [List.find?]
    · have h0 : (n.id == ex.id) = false := by
        refine beq_eq_false_iff_ne.mpr ?_
        intro hcontra
        exact hd.1 (hcontra ▸ List.mem_map.mpr ⟨ex, hex', rfl⟩)
      show (n :: d).find? (fun m => m.id == ex.id) = some ex
      simp only [List.find?, h0]
      exact ih hd.2 hex'

theorem finish_register_db (sv : ServerState) (ss : SessState) (dl : List Str)
    (n? : Option Node) : (finish_register sv ss dl n?).server.db = sv.db := by
  unfold finish_register
  rcases n? with _ | node
  · rfl
  · dsimp only []
    rcases hcfg : generate_configs sv.db node.id with _ | cfg
    · rfl
    · rfl

/-- Counterexample for C4 as stated: re-registering the existing node `c`
overwrites its stored listen list with the current listen template; the
previous listen list is not preserved. -/
theorem register_existing_listen_counterexample :
    get_node_by_id (session_step genTest serverC sessFresh
        (.msg (.Register ("c".data) ["10.9.9.9".data]))).server.db ("node-c".data)
      = some { nodeC with
               listen := ["tcp://0.0.0.0:9001".data]
               addresses := ["10.9.9.9".data] }
    ∧ (["tcp://0.0.0.0:9001".data] : List Str) ≠ nodeC.listen := by decide

/-- Claim C4 (amended): on `Register{name, addresses}` for an existing
node, the handler updates the record's `addresses` and `name` but also
resets its `listen` to the current Listen Template — the previously
stored listen list is overwritten, not re-used. -/
theorem register_existing_resets_listen
    (gen : Nat → Str × Str × Str) (server : ServerState) (sess : SessState)
    (name : Str) (addrs : List Str) (ex : Node)
    (hd : (server.db.map (fun n => n.id)).Nodup)
    (hex : get_node_by_name server.db name = some ex) :
    get_node_by_id (session_step gen server sess (.msg (.Register name addrs))).server.db ex.id
      = some { ex with
               name := name
               listen := server.template
               addresses := addrs } := by
  have hmem : ex ∈ server.db := List.mem_of_find?_eq_some hex
  have hany : server.db.any (fun n => n.id == ex.id) = true :=
    List.any_eq_true.mpr ⟨ex, hmem, beq_iff_eq.mpr rfl⟩
  unfold session_step
  dsimp only []
  rw [hex]
  dsimp only []
  unfold update_node
  rw [if_pos hany]
  dsimp only []
  rw [finish_register_db]
  rw [get_node_by_id_update server.db ex.id
    (fun n => { n with name := name, listen := server.template, addresses := addrs })
    (fun n => rfl)]
  rw [get_node_by_id_of_mem hd hmem]
  rfl

/-- Witness for the amended C4: re-registering `nodeC` under `serverC`
whose template differs from `nodeC`'s stored listen list. -/
theorem register_existing_resets_listen_witness :
    get_node_by_id (session_step genTest serverC sessFresh
        (.msg (.Register ("c".data) ["10.9.9.9".data]))).server.db nodeC.id
      = some { nodeC with
               name := "c".data
               listen := serverC.template
               addresses := ["10.9.9.9".data] } :=
  register_existing_resets_listen genTest serverC sessFresh ("c".data)
    ["10.9.9.9".data] nodeC (by decide) (by decide)

/-- Claim C5: on `UpdateAddresses{addresses}` for an associated session
whose node exists, the stored record afterwards carries the new addresses
with `name`, `listen`, `id` and both keys unchanged, and a full broadcast
against the updated directory is triggered. -/
theorem update_addresses_preserves_identity
    (gen : Nat → Str × Str × Str) (server : ServerState) (sess : SessState)
    (id : Str) (addrs : List Str) (cur : Node)
    (hid : sess.node_id = some id) (hcur : get_node_by_id server.db id = some cur) :
    get_node_by_id (session_step gen server sess
        (.msg (.UpdateAddresses addrs))).server.db id
      = some { cur with addresses := addrs } ∧
    (session_step gen server sess (.msg (.UpdateAddresses addrs))).server.registry
      = (broadcast_configuration_update server.registry
          (.ok (session_step gen server sess (.msg (.UpdateAddresses addrs))).server.db)).1 ∧
    (session_step gen server sess (.msg (.UpdateAddresses addrs))).bcastOut
      = (broadcast_configuration_update server.registry
          (.ok (session_step gen server sess (.msg (.UpdateAddresses addrs))).server.db)).2.2 := by
  have hfind : List.find? (fun (n : Node) => n.id == id) server.db = some cur := hcur
  have hpred := List.find?_some hfind
  have hany : server.db.any (fun n => n.id == id) = true :=
    List.any_eq_true.mpr ⟨cur, List.mem_of_find?_eq_some hcur, hpred⟩
  unfold session_step
  dsimp only []
  rw [hid]
  dsimp only []
  rw [hcur]
  dsimp only []
  unfold update_node
  rw [if_pos hany]
  dsimp only []
  refine ⟨?_, rfl, rfl⟩
  rw [get_node_by_id_update server.db id
    (fun n => { n with name := cur.name, listen := cur.listen, addresses := addrs })
    (fun n => rfl)]
  rw [hcur]
  rfl

/-- Witness for C5: an address update for `nodeC` through its associated
session. -/
theorem update_addresses_preserves_identity_witness :
    get_node_by_id (session_step genTest serverC sessC
        (.msg (.UpdateAddresses ["10.0.0.9".data]))).server.db ("node-c".data)
      = some { nodeC with addresses := ["10.0.0.9".data] } ∧
    (session_step genTest serverC sessC
        (.msg (.UpdateAddresses ["10.0.0.9".data]))).server.registry
      = (broadcast_configuration_update serverC.registry
          (.ok (session_step genTest serverC sessC
            (.msg (.UpdateAddresses ["10.0.0.9".data]))).server.db)).1 ∧
    (session_step genTest serverC sessC
        (.msg (.UpdateAddresses ["10.0.0.9".data]))).bcastOut
      = (broadcast_configuration_update serverC.registry
          (.ok (session_step genTest serverC sessC
            (.msg (.UpdateAddresses ["10.0.0.9".data]))).server.db)).2.2 :=
  update_addresses_preserves_identity genTest serverC sessC ("node-c".data)
    ["10.0.0.9".data] nodeC (by decide) (by decide)

/-! ### Broadcast reconciliation (C6, C8, C10) -/

/-- The awaited mpsc send fails exactly when the receiver is gone; a full
channel with a live receiver waits, it does not fail. -/
theorem mpscSendAwait_failed_iff (ch : Chan) :
    mpscSendAwait ch = .failed ↔ ch.closed = true := by
  unfold mpscSendAwait
  rcases hcl : ch.closed with _ | _
  · simp only [Bool.false_eq_true, if_false]
    by_cases h : ch.capacity ≤ ch.queued
    · simp [h]
    · simp [h]
  · simp

/-- Closed form of the broadcast fan-out fold: the failed list collects
exactly the ids whose send failed or whose node is gone from the
topology; the log collects one delivered `Update` per live channel. -/
theorem broadcastStep_foldl (configs : Str → Option YggdrasilConfig) :
    ∀ (conns : List (Str × Chan)) (f0 : List Str) (l0 : List (Str × ServerMessage)),
      conns.foldl (broadcastStep configs) (f0, l0)
        = (f0 ++ conns.filterMap (fun p =>
            if mpscSendAwait p.2 = .failed ∨ configs p.1 = none then some p.1 else none),
           l0 ++ conns.filterMap (fun p =>
            if mpscSendAwait p.2 = .failed then none
            else some (p.1, match configs p.1 with
              | some c => ServerMessage.Update c.listen c.peers c.allowed_public_keys
              | none => ServerMessage.Update [] [] []))) := by
  intro conns
  induction conns with
  | nil => intro f0 l0; simp
  | cons p rest ih =>
    intro f0 l0
    rw [List.foldl_cons]
    rcases hc : configs p.1 with _ | cfg <;>
      rcases hs : mpscSendAwait p.2 with _ | _ | _ <;>
        simp [broadcastStep, hc, hs, ih, List.filterMap_cons]

theorem key_pair_unique {conns : List (Str × Chan)} (hnd : (conns.map Prod.fst).Nodup)
    {id : Str} {ch : Chan} (hmem : (id, ch) ∈ conns) :
    ∀ p ∈ conns, p.1 = id → p = (id, ch) := by
  induction conns with
  | nil => cases hmem
  | cons q rest ih =>
    rw [List.map_cons, List.nodup_cons] at hnd
    intro p hp hpid
    rcases List.mem_cons.mp hmem with rfl | hmem'
    · rcases List.mem_cons.mp hp with rfl | hp'
      · rfl
      · exact absurd (List.mem_map.mpr ⟨p, hp', hpid⟩) hnd.1
    · rcases List.mem_cons.mp hp with rfl | hp'
      · exfalso
        have : id ∈ rest.map Prod.fst := List.mem_map.mpr ⟨(id, ch), hmem', rfl⟩
        rw [← hpid] at this
        exact hnd.1 this
      · exact ih hnd.2 hmem' p hp' hpid

theorem broadcast_failed_mem_iff (conns : List (Str × Chan)) (read : Except Str (List Node))
    (id : Str) (ch : Chan)
    (hnd : (conns.map Prod.fst).Nodup) (hmem : (id, ch) ∈ conns) :
    id ∈ (broadcast_configuration_update conns read).2.1
      ↔ (ch.closed = true ∨ generate_configs (get_all_nodes read) id = none) := by
  show id ∈ (conns.foldl (broadcastStep (generate_configs (get_all_nodes read))) ([], [])).1 ↔ _
  rw [broadcastStep_foldl]
  simp only [List.nil_append]
  constructor
  · intro h
    obtain ⟨p, hp, hsome⟩ := List.mem_filterMap.mp h
    by_cases hcnd : mpscSendAwait p.2 = .failed
        ∨ generate_configs (get_all_nodes read) p.1 = none
    · rw [if_pos hcnd] at hsome
      have hpid : p.1 = id := Option.some.inj hsome
      have hpe := key_pair_unique hnd hmem p hp hpid
      rw [hpe] at hcnd
      rcases hcnd with h1 | h1
      · exact Or.inl ((mpscSendAwait_failed_iff ch).mp h1)
      · exact Or.inr h1
    · rw [if_neg hcnd] at hsome
      cases hsome
  · intro h
    refine List.mem_filterMap.mpr ⟨(id, ch), hmem, ?_⟩
    have hcnd : mpscSendAwait ch = .failed
        ∨ generate_configs (get_all_nodes read) id = none := by
      rcases h with h | h
      · exact Or.inl ((mpscSendAwait_failed_iff ch).mpr h)
      · exact Or.inr h
    rw [if_pos hcnd]

theorem filter_key_removed_iff {conns : List (Str × Chan)} {id : Str} {ch : Chan}
    (F : List Str) (hmem : (id, ch) ∈ conns) :
    id ∉ (conns.filter (fun p => decide (p.1 ∉ F))).map Prod.fst ↔ id ∈ F := by
  constructor
  · intro hnot
    by_contra hF
    exact hnot (List.mem_map.mpr ⟨(id, ch), List.mem_filter.mpr ⟨hmem, decide_eq_true hF⟩, rfl⟩)
  · intro hF hmapmem
    obtain ⟨p, hp, hpid⟩ := List.mem_map.mp hmapmem
    obtain ⟨hpmem, hpdec⟩ := List.mem_filter.mp hp
    exact (of_decide_eq_true hpdec) (by rw [hpid]; exact hF)

theorem broadcast_removed_iff (conns : List (Str × Chan)) (read : Except Str (List Node))
    (id : Str) (ch : Chan) (hmem : (id, ch) ∈ conns) :
    id ∉ (broadcast_configuration_update conns read).1.map Prod.fst
      ↔ id ∈ (broadcast_configuration_update conns read).2.1 :=
  filter_key_removed_iff _ hmem

theorem broadcast_deleted_sends_empty (conns : List (Str × Chan))
    (read : Except Str (List Node)) (id : Str) (ch : Chan)
    (hmem : (id, ch) ∈ conns)
    (hnone : generate_configs (get_all_nodes read) id = none)
    (hlive : ch.closed = false) :
    (id, ServerMessage.Update [] [] []) ∈ (broadcast_configuration_update conns read).2.2 := by
  show (id, ServerMessage.Update [] [] [])
    ∈ (conns.foldl (broadcastStep (generate_configs (get_all_nodes read))) ([], [])).2
  rw [broadcastStep_foldl]
  simp only [List.nil_append]
  refine List.mem_filterMap.mpr ⟨(id, ch), hmem, ?_⟩
  have hnotfail : ¬ (mpscSendAwait ch = .failed) := by
    rw [mpscSendAwait_failed_iff, hlive]
    exact Bool.false_ne_true
  rw [if_neg hnotfail, hnone]

/-- Claim C6: after a broadcast, a registered id has been removed from the
registry exactly when the send to its channel failed (receiver gone) or
its id is absent from the synthesized topology; a deleted node's live
session is sent the empty `Update` before removal, and the entry is
removed regardless of the send outcome. -/
theorem broadcast_prunes_iff (conns : List (Str × Chan)) (read : Except Str (List Node))
    (id : Str) (ch : Chan)
    (hnd : (conns.map Prod.fst).Nodup) (hmem : (id, ch) ∈ conns) :
    (id ∉ (broadcast_configuration_update conns read).1.map Prod.fst
      ↔ (ch.closed = true ∨ generate_configs (get_all_nodes read) id = none)) ∧
    (generate_configs (get_all_nodes read) id = none → ch.closed = false →
      (id, ServerMessage.Update [] [] []) ∈ (broadcast_configuration_update conns read).2.2) :=
  ⟨(broadcast_removed_iff conns read id ch hmem).trans
      (broadcast_failed_mem_iff conns read id ch hnd hmem),
   fun hnone hlive => broadcast_deleted_sends_empty conns read id ch hmem hnone hlive⟩

/-- Witness for C6: a closed-channel session for `nodeA` and the one-node
directory. -/
theorem broadcast_prunes_iff_witness :
    (("node-a".data : Str) ∉ (broadcast_configuration_update [("node-a".data, chanClosed)]
        (.ok [nodeA])).1.map Prod.fst
      ↔ (chanClosed.closed = true
        ∨ generate_configs (get_all_nodes (.ok [nodeA])) ("node-a".data) = none)) ∧
    (generate_configs (get_all_nodes (.ok [nodeA])) ("node-a".data) = none →
      chanClosed.closed = false →
      (("node-a".data : Str), ServerMessage.Update [] [] [])
        ∈ (broadcast_configuration_update [("node-a".data, chanClosed)] (.ok [nodeA])).2.2) :=
  broadcast_prunes_iff [("node-a".data, chanClosed)] (.ok [nodeA]) ("node-a".data) chanClosed
    (by decide) (by decide)

/-- Counterexample for C8 as stated: a full channel with a live receiver
is NOT treated the same as a failed send — the closed-channel session is
marked failed and pruned, the full-channel session is not; its send is
awaited instead. -/
theorem broadcast_full_channel_counterexample :
    mpscSendAwait chanFull = .deliveredAfterWait ∧
    mpscSendAwait chanClosed = .failed ∧
    (broadcast_configuration_update [("node-a".data, chanFull)] (.ok [nodeA])).2.1 = [] ∧
    (broadcast_configuration_update [("node-a".data, chanClosed)] (.ok [nodeA])).2.1
      = ["node-a".data] := by decide

/-- Claim C8 (amended): broadcast's send on a session's bounded channel is
awaited: a full channel with a live receiver makes the send wait for
capacity (while the registry lock is held) rather than erroring, so the
session is neither marked failed nor pruned when its node is still in the
topology; only a closed channel (receiver gone) counts as a failed send. -/
theorem broadcast_full_channel_waits (conns : List (Str × Chan))
    (read : Except Str (List Node)) (id : Str) (ch : Chan) (cfg : YggdrasilConfig)
    (hnd : (conns.map Prod.fst).Nodup) (hmem : (id, ch) ∈ conns)
    (hlive : ch.closed = false) (hfull : ch.capacity ≤ ch.queued)
    (hcfg : generate_configs (get_all_nodes read) id = some cfg) :
    mpscSendAwait ch = .deliveredAfterWait ∧
    id ∉ (broadcast_configuration_update conns read).2.1 ∧
    id ∈ (broadcast_configuration_update conns read).1.map Prod.fst := by
  have hwait : mpscSendAwait ch = .deliveredAfterWait := by
    unfold mpscSendAwait
    rw [hlive]
    simp [hfull]
  have hnotfailed : id ∉ (broadcast_configuration_update conns read).2.1 := by
    rw [broadcast_failed_mem_iff conns read id ch hnd hmem]
    rintro (h | h)
    · rw [hlive] at h
      exact Bool.false_ne_true h
    · rw [hcfg] at h
      cases h
  refine ⟨hwait, hnotfailed, ?_⟩
  by_contra hnot
  exact hnotfailed ((broadcast_removed_iff conns read id ch hmem).mp hnot)

/-- Witness for the amended C8: `nodeA`'s session behind a full but live
channel survives the broadcast. -/
theorem broadcast_full_channel_waits_witness :
    mpscSendAwait chanFull = .deliveredAfterWait ∧
    ("node-a".data : Str) ∉ (broadcast_configuration_update [("node-a".data, chanFull)]
        (.ok [nodeA])).2.1 ∧
    ("node-a".data : Str) ∈ (broadcast_configuration_update [("node-a".data, chanFull)]
        (.ok [nodeA])).1.map Prod.fst :=
  broadcast_full_channel_waits [("node-a".data, chanFull)] (.ok [nodeA]) ("node-a".data)
    chanFull (node_config [nodeA] nodeA) (by decide) (by decide) (by decide) (by decide)
    (by decide)

/-- Claim C10: when the directory read fails, the read-all operation
returns the empty node list, topology synthesis yields the empty map, and
a broadcast in that state empties the whole registry while delivering the
empty teardown `Update` to every live session. -/
theorem broadcast_on_directory_failure (e : Str) (conns : List (Str × Chan)) :
    get_all_nodes (Except.error e) = [] ∧
    (∀ k, generate_configs (get_all_nodes (Except.error e)) k = none) ∧
    (broadcast_configuration_update conns (Except.error e)).1 = [] ∧
    (∀ p ∈ conns, p.2.closed = false →
      (p.1, ServerMessage.Update [] [] [])
        ∈ (broadcast_configuration_update conns (Except.error e)).2.2) := by
  refine ⟨rfl, fun k => rfl, ?_, ?_⟩
  · show conns.filter (fun p => decide (p.1 ∉
        (conns.foldl (broadcastStep (generate_configs (get_all_nodes (Except.error e))))
          ([], [])).1)) = []
    refine List.filter_eq_nil.mpr ?_
    intro p hp
    have hpF : p.1 ∈ (conns.foldl (broadcastStep
        (generate_configs (get_all_nodes (Except.error e)))) ([], [])).1 := by
      rw [broadcastStep_foldl]
      simp only [List.nil_append]
      exact List.mem_filterMap.mpr ⟨p, hp, by
        rw [if_pos (Or.inr (show generate_configs
          (get_all_nodes (Except.error e)) p.1 = none from rfl))]⟩
    simp [hpF]
  · intro p hp hlive
    exact broadcast_deleted_sends_empty conns (Except.error e) p.1 p.2 hp rfl hlive

/-- Witness for C10: a directory failure with one live and one closed
session registered. -/
theorem broadcast_on_directory_failure_witness :
    get_all_nodes (Except.error ("db down".data)) = [] ∧
    (∀ k, generate_configs (get_all_nodes (Except.error ("db down".data))) k = none) ∧
    (broadcast_configuration_update [("node-a".data, chanLive), ("node-b".data, chanClosed)]
        (Except.error ("db down".data))).1 = [] ∧
    (∀ p ∈ [(("node-a".data : Str), chanLive), (("node-b".data : Str), chanClosed)],
      p.2.closed = false →
      (p.1, ServerMessage.Update [] [] [])
        ∈ (broadcast_configuration_update
            [("node-a".data, chanLive), ("node-b".data, chanClosed)]
            (Except.error ("db down".data))).2.2) :=
  broadcast_on_directory_failure ("db down".data)
    [("node-a".data, chanLive), ("node-b".data, chanClosed)]

/-! ### Malformed inbound frames (C7) -/

/-- Claim C7: a text frame that fails to parse is dropped: the step for a
malformed frame changes neither the directory, nor the registry, nor the
session, and emits no reply and no broadcast; the receive loop continues
with the remaining frames exactly as if the malformed frame had not
arrived. -/
theorem malformed_frame_no_effect (gen : Nat → Str × Str × Str) (server : ServerState)
    (sess : SessState) :
    session_step gen server sess Inbound.malformed
      = ⟨server, sess, [], []⟩ ∧
    ∀ (fs1 fs2 : List Inbound),
      session_loop gen (fs1 ++ Inbound.malformed :: fs2) server sess
        = session_loop gen (fs1 ++ fs2) server sess := by
  refine ⟨rfl, ?_⟩
  intro fs1
  induction fs1 generalizing server sess with
  | nil =>
    intro fs2
    rfl
  | cons f fs ih =>
    intro fs2
    show session_loop gen (f :: (fs ++ Inbound.malformed :: fs2)) server sess
      = session_loop gen (f :: (fs ++ fs2)) server sess
    simp only [session_loop]
    rw [ih]

/-- Witness for C7: a malformed frame between a heartbeat and an address
update in `nodeC`'s session. -/
theorem malformed_frame_no_effect_witness :
    session_step genTest serverC sessC Inbound.malformed
      = ⟨serverC, sessC, [], []⟩ ∧
    ∀ (fs1 fs2 : List Inbound),
      session_loop genTest (fs1 ++ Inbound.malformed :: fs2) serverC sessC
        = session_loop genTest (fs1 ++ fs2) serverC sessC :=
  malformed_frame_no_effect genTest serverC sessC

/-! ### Agent-side configuration writer (C9) -/

theorem find_setKey_present (k : Str) (v : JVal) :
    ∀ doc : List (Str × JVal), (doc.any fun p => p.1 == k) = true →
      (doc.map (fun p => if p.1 = k then (k, v) else p)).find? (fun p => p.1 == k)
        = some (k, v) := by
  intro doc
  induction doc with
  | nil => intro h; simp at h
  | cons q d ih =>
    intro h
    by_cases hq : q.1 = k
    · show ((if q.1 = k then (k, v) else q) :: d.map _).find? (fun p => p.1 == k) = some (k, v)
      rw [if_pos hq]
      simp [List.find?]
    · show ((if q.1 = k then (k, v) else q) :: d.map _).find? (fun p => p.1 == k) = some (k, v)
      rw [if_neg hq]
      have h0 : (q.1 == k) = false := beq_eq_false_iff_ne.mpr hq
      simp only [List.find?, h0]
      refine ih ?_
      rcases List.any_eq_true.mp h with ⟨x, hx, hpx⟩
      rcases List.mem_cons.mp hx with rfl | hx'
      · exact absurd (beq_iff_eq.mp hpx) hq
      · exact List.any_eq_true.mpr ⟨x, hx', hpx⟩

theorem find_append_new (k : Str) (v : JVal) :
    ∀ doc : List (Str × JVal), ¬ ((doc.any fun p => p.1 == k) = true) →
      (doc ++ [(k, v)]).find? (fun p => p.1 == k) = some (k, v) := by
  intro doc
  induction doc with
  | nil =>
    intro _
    show ([(k, v)] : List (Str × JVal)).find? (fun p => p.1 == k) = some (k, v)
    simp [List.find?]
  | cons q d ih =>
    intro h
    have h0 : (q.1 == k) = false := by
      rcases hb : q.1 == k with _ | _
      · rfl
      · exact absurd (List.any_eq_true.mpr ⟨q, List.mem_cons_self _ _, hb⟩) h
    show (q :: (d ++ [(k, v)])).find? (fun p => p.1 == k) = some (k, v)
    simp only [List.find?, h0]
    refine ih ?_
    intro hh
    rcases List.any_eq_true.mp hh with ⟨x, hx, hpx⟩
    exact h (List.any_eq_true.mpr ⟨x, List.mem_cons_of_mem _ hx, hpx⟩)

theorem getKey_setKey_same (doc : List (Str × JVal)) (k : Str) (v : JVal) :
    getKey (setKey doc k v) k = some v := by
  unfold setKey getKey
  by_cases h : (doc.any fun p => p.1 == k) = true
  · rw [if_pos h, find_setKey_present k v doc h]
    rfl
  · rw [if_neg h, find_append_new k v doc h]
    rfl

theorem find_setKey_other (k k' : Str) (v : JVal) (hne : k' ≠ k) :
    ∀ doc : List (Str × JVal),
      (doc.map (fun p => if p.1 = k then (k, v) else p)).find? (fun p => p.1 == k')
        = doc.find? (fun p => p.1 == k') := by
  intro doc
  induction doc with
  | nil => rfl
  | cons q d ih =>
    by_cases hq : q.1 = k
    · show ((if q.1 = k then (k, v) else q) :: d.map _).find? (fun p => p.1 == k')
        = (q :: d).find? (fun p => p.1 == k')
      rw [if_pos hq]
      have h1 : (k == k') = false := beq_eq_false_iff_ne.mpr (Ne.symm hne)
      have h2 : (q.1 == k') = false := by
        rw [hq]
        exact h1
      simp only [List.find?, h1, h2]
      exact ih
    · show ((if q.1 = k then (k, v) else q) :: d.map _).find? (fun p => p.1 == k')
        = (q :: d).find? (fun p => p.1 == k')
      rw [if_neg hq]
      rcases hb : q.1 == k' with _ | _
      · simp only [List.find?, hb]
        exact ih
      · simp only [List.find?, hb]

theorem find_append_other (k k' : Str) (v : JVal) (hne : k' ≠ k) :
    ∀ doc : List (Str × JVal),
      (doc ++ [(k, v)]).find? (fun p => p.1 == k') = doc.find? (fun p => p.1 == k') := by
  intro doc
  induction doc with
  | nil =>
    show ([(k, v)] : List (Str × JVal)).find? (fun p => p.1 == k') = none
    simp [List.find?, beq_eq_false_iff_ne.mpr (Ne.symm hne)]
  | cons q d ih =>
    show (q :: (d ++ [(k, v)])).find? (fun p => p.1 == k')
      = (q :: d).find? (fun p => p.1 == k')
    rcases hb : q.1 == k' with _ | _
    · simp only [List.find?, hb]
      exact ih
    · simp only [List.find?, hb]

theorem getKey_setKey_other (doc : List (Str × JVal)) (k k' : Str) (v : JVal)
    (hne : k' ≠ k) :
    getKey (setKey doc k v) k' = getKey doc k' := by
  unfold setKey getKey
  by_cases h : (doc.any fun p => p.1 == k) = true
  · rw [if_pos h, find_setKey_other k k' v hne doc]
  · rw [if_neg h, find_append_other k k' v hne doc]

/-- Claim C9: applying a full configuration update overwrites exactly the
`Listen`, `Peers` and `AllowedPublicKeys` fields of the document; every
other field — in particular `PrivateKey` — keeps its previous value. -/
theorem update_config_full_preserves_other_fields
    (doc : List (Str × JVal)) (listen peers apk : List Str) (k : Str)
    (h1 : k ≠ "Listen".data) (h2 : k ≠ "Peers".data) (h3 : k ≠ "AllowedPublicKeys".data) :
    getKey (update_yggdrasil_config_full doc listen peers apk) k = getKey doc k ∧
    getKey (update_yggdrasil_config_full doc listen peers apk) ("Listen".data)
      = some (.arr listen) ∧
    getKey (update_yggdrasil_config_full doc listen peers apk) ("Peers".data)
      = some (.arr peers) ∧
    getKey (update_yggdrasil_config_full doc listen peers apk) ("AllowedPublicKeys".data)
      = some (.arr apk) := by
  unfold update_yggdrasil_config_full
  refine ⟨?_, ?_, ?_, ?_⟩
  · rw [getKey_setKey_other _ _ _ _ h3, getKey_setKey_other _ _ _ _ h2,
      getKey_setKey_other _ _ _ _ h1]
  · rw [getKey_setKey_other _ _ _ _ (by decide), getKey_setKey_other _ _ _ _ (by decide),
      getKey_setKey_same]
  · rw [getKey_setKey_other _ _ _ _ (by decide), getKey_setKey_same]
  · rw [getKey_setKey_same]

/-- Witness for C9: the `PrivateKey` entry of the fixture document
survives a full update. -/
theorem update_config_full_preserves_other_fields_witness :
    getKey (update_yggdrasil_config_full docTest ["tcp://0.0.0.0:9001".data]
        ["tcp://10.0.0.2:9002?key=PB".data] ["PB".data]) ("PrivateKey".data)
      = getKey docTest ("PrivateKey".data) ∧
    getKey (update_yggdrasil_config_full docTest ["tcp://0.0.0.0:9001".data]
        ["tcp://10.0.0.2:9002?key=PB".data] ["PB".data]) ("Listen".data)
      = some (.arr ["tcp://0.0.0.0:9001".data]) ∧
    getKey (update_yggdrasil_config_full docTest ["tcp://0.0.0.0:9001".data]
        ["tcp://10.0.0.2:9002?key=PB".data] ["PB".data]) ("Peers".data)
      = some (.arr ["tcp://10.0.0.2:9002?key=PB".data]) ∧
    getKey (update_yggdrasil_config_full docTest ["tcp://0.0.0.0:9001".data]
        ["tcp://10.0.0.2:9002?key=PB".data] ["PB".data]) ("AllowedPublicKeys".data)
      = some (.arr ["PB".data]) :=
  update_config_full_preserves_other_fields docTest ["tcp://0.0.0.0:9001".data]
    ["tcp://10.0.0.2:9002?key=PB".data] ["PB".data] ("PrivateKey".data)
    (by decide) (by decide) (by decide)
